import Mathlib

/-
Verification of the Resolve .cube LUT codec (colour/io/luts/resolve_cube.py).

Shallow embedding conventions:
- Scalars are exact rationals.  The Python code operates on IEEE binary64
  values; every claim checked here is about decimal round-tripping with a
  tolerance of 10^-decimals, for which the exact-rational idealisation is the
  standard model.  Fixed-point formatting is modelled as rounding to the
  nearest multiple of 10^-decimals (Mathlib round, half-up at exact ties;
  binary64 printing resolves exact ties by the binary value, which never
  affects the 10^-decimals bounds proved here).
- A file is modelled as its list of lines (Python readlines after stripping
  the newline terminators); the round-trip theorems carry explicit
  hypotheses that names and comments contain no newline character, which is
  what makes the list-of-lines model faithful.
- Python str.strip and str.split() are modelled by trimChars and splitWsAux
  on character lists (split on runs of whitespace, dropping empty tokens).
- float(token) (np.float64) is modelled by parseDecCore on the fixed-point
  decimal forms [+-]?digits[.digits] that the format uses; exponent forms,
  inf and nan are not representable as rationals and are outside every
  claim.  np.int_(token) is modelled by parseNatTok on digit strings.
- numpy reshape(..., order='F') of an (M, w) array into (S, S, S, 3) reads
  the source in Fortran order (entry (i, j) at flat position i + M*j) and
  writes in Fortran order (entry (r, g, b, c) at flat position
  r + S*g + S*S*b + S*S*S*c); reshapeF and flattenF implement exactly this
  index arithmetic.  A ragged row list (which numpy of the era would turn
  into an object array whose reshape to a 4-axis grid fails) is mapped to
  the same error.
- Fallible code returns Except String; assertion failures and exceptions
  (AssertionError, ValueError, IndexError) are Except.error values.  The
  reader falling off the end of read_LUT_ResolveCube (no size directive)
  returns Except.ok none, the model of Python returning None.
- The LUT1D/LUT2D/LUT3D/LUTSequence containers live outside src/; they are
  plain records here (name, domain, table, comments) as the spec describes.
-/

namespace ResolveCube

/-! ### Characters, trimming, splitting -/

/-- Python str.strip: drop whitespace at both ends of a character list. -/
def trimChars (cs : List Char) : List Char :=
  ((cs.dropWhile Char.isWhitespace).reverse.dropWhile Char.isWhitespace).reverse

/-- Worker for Python str.split(): split on runs of whitespace, dropping
empty tokens; the accumulator holds the current token reversed. -/
def splitWsAux : List Char → List Char → List (List Char)
  | [], acc => if acc = [] then [] else [acc.reverse]
  | c :: cs, acc =>
    if c.isWhitespace then
      if acc = [] then splitWsAux cs [] else acc.reverse :: splitWsAux cs []
    else splitWsAux cs (c :: acc)

/-- Python str.split() on a string. -/
def pySplit (s : String) : List (List Char) := splitWsAux s.data []

/-- Python ' '.join. -/
def joinSpace : List (List Char) → List Char
  | [] => []
  | [t] => t
  | t :: t2 :: ts => t ++ ' ' :: joinSpace (t2 :: ts)

/-- Python s[1:-1]: drop the first and last characters. -/
def dropEdges (cs : List Char) : List Char := (cs.drop 1).dropLast

/-- Left trim only. -/
def ltrimC (cs : List Char) : List Char := cs.dropWhile Char.isWhitespace

/-- Right trim only. -/
def rtrimC (cs : List Char) : List Char :=
  (cs.reverse.dropWhile Char.isWhitespace).reverse

/-- A whitespace-free nonempty token: splitting leaves it intact. -/
def CleanTok (t : List Char) : Prop := t ≠ [] ∧ ∀ c ∈ t, c.isWhitespace = false

/-! ### Decimal numerals -/

/-- Numeric value of a decimal digit character. -/
def charDigit (c : Char) : ℕ := c.toNat - 48

/-- Decimal digit character of a value below ten. -/
def digitChar (d : ℕ) : Char := Char.ofNat (48 + d)

/-- Value of a most-significant-first digit character list. -/
def foldDigits (cs : List Char) : ℕ := cs.foldl (fun a c => 10 * a + charDigit c) 0

/-- Decimal representation of a natural number, most significant digit
first. -/
def natReprChars (n : ℕ) : List Char :=
  if n = 0 then ['0'] else ((Nat.digits 10 n).map digitChar).reverse

/-- np.int_ applied to a token: value of a nonempty all-digit token. -/
def parseNatTok (t : List Char) : Option ℕ :=
  if t ≠ [] ∧ t.all Char.isDigit then some (foldDigits t) else none

/-- Unsigned part of float(token): digits, optionally followed by a point
and more digits, with at least one digit present. -/
def parseUnsigned (cs : List Char) : Option ℚ :=
  let ip := cs.takeWhile Char.isDigit
  let rest := cs.dropWhile Char.isDigit
  match rest with
  | [] => if ip = [] then none else some (foldDigits ip : ℚ)
  | '.' :: rest2 =>
    let fp := rest2.takeWhile Char.isDigit
    let rest3 := rest2.dropWhile Char.isDigit
    if rest3 = [] ∧ (ip ≠ [] ∨ fp ≠ []) then
      some ((foldDigits ip : ℚ) + (foldDigits fp : ℚ) / 10 ^ fp.length)
    else none
  | _ => none

/-- float(token) on the fixed-point decimal forms used by the format. -/
def parseDecCore : List Char → Option ℚ
  | c :: t =>
    if c = '-' then (parseUnsigned t).map (fun q => -q)
    else if c = '+' then parseUnsigned t
    else parseUnsigned (c :: t)
  | [] => parseUnsigned []

/-- Parse every token of a data row as a scalar (None on the first
failure, the model of a float() ValueError). -/
def mapOptQ : List (List Char) → Option (List ℚ)
  | [] => some []
  | t :: ts =>
    match parseDecCore t with
    | none => none
    | some q =>
      match mapOptQ ts with
      | none => none
      | some qs => some (q :: qs)

/-- Rounding a scalar to the nearest multiple of 10^-d: the value that
fixed-point formatting at d decimals denotes. -/
def rnd (d : ℕ) (x : ℚ) : ℚ := (round (x * 10 ^ d) : ℤ) / 10 ^ d

/-- Fractional digit block of fixed-point formatting: the remainder padded
on the left with zeros to exactly d digits. -/
def fracChars (d fp : ℕ) : List Char :=
  List.replicate (d - (natReprChars fp).length) '0' ++ natReprChars fp

/-- Python '\x7b:0.df\x7d'.format(x): fixed-point with exactly d fractional
digits (no point when d = 0). -/
def fmtChars (d : ℕ) (x : ℚ) : List Char :=
  (if round (x * 10 ^ d) < 0 then ['-'] else []) ++
    natReprChars ((round (x * 10 ^ d)).natAbs / 10 ^ d) ++
    (if d = 0 then [] else '.' :: fracChars d ((round (x * 10 ^ d)).natAbs % 10 ^ d))

/-- Fixed-point formatting as a string. -/
def fmtFixed (d : ℕ) (x : ℚ) : String := String.mk (fmtChars d x)

/-- Number of characters after the first point of a string (0 when there is
no point): the count of fractional digits of a fixed-point numeral. -/
def fracLen (s : String) : ℕ := (s.data.dropWhile (fun c => c ≠ '.')).tail.length

/-! ### Data model -/

/-- An RGB triple. -/
abbrev V3 := ℚ × ℚ × ℚ

/-- A domain array: a list of RGB rows (normally min and max). -/
abbrev Domain := List V3

/-- The default domain of every stage. -/
def defaultDomain : Domain := [(0, 0, 0), (1, 1, 1)]

/-- The LUT1D container: a linear table of single-channel values. -/
structure LUT1D where
  name : String
  domain : ℚ × ℚ
  table : List ℚ
  comments : List String
deriving DecidableEq

/-- The LUT2D (shaper) container: a table of rows of scalars. -/
structure LUT2D where
  name : String
  domain : Domain
  table : List (List ℚ)
  comments : List String
deriving DecidableEq

/-- A cubic grid, indexed table r g b, each entry an RGB triple. -/
abbrev Cube := List (List (List V3))

/-- The LUT3D (cube) container. -/
structure LUT3D where
  name : String
  domain : Domain
  table : Cube
  comments : List String
deriving DecidableEq

/-- Size of a shaper: first table axis. -/
def LUT2D.size (l : LUT2D) : ℕ := l.table.length

/-- Size of a cube: first table axis. -/
def LUT3D.size (l : LUT3D) : ℕ := l.table.length

/-- The cubic grid is rectangular with side S on every axis. -/
def WFCube (S : ℕ) (t : Cube) : Prop :=
  t.length = S ∧ ∀ p ∈ t, p.length = S ∧ ∀ q ∈ p, q.length = S

instance (S : ℕ) (t : Cube) : Decidable (WFCube S t) := by
  unfold WFCube; infer_instance

/-- Entry of a cubic grid at logical index (r, g, b). -/
def cubeGet (t : Cube) (r g b : ℕ) : V3 := ((t.getD r []).getD g []).getD b (0, 0, 0)

/-- Fortran-order flat sequence of an (M, w) row list: position p holds
row (p mod M), column (p div M). -/
def fflat (rows : List (List ℚ)) (p : ℕ) : ℚ :=
  (rows.getD (p % rows.length) []).getD (p / rows.length) 0

/-- numpy reshape((S, S, S, 3), order='F') of a row list: entry (r, g, b)
takes its channel c from Fortran flat position r + S*g + S*S*b + S*S*S*c.
Fails (None) when the element count does not match or the rows are ragged. -/
def reshapeF (S : ℕ) (rows : List (List ℚ)) : Option Cube :=
  let w := (rows.headD []).length
  if (∀ row ∈ rows, row.length = w) ∧ rows.length * w = 3 * (S * S * S) then
    some ((List.range S).map fun r => (List.range S).map fun g => (List.range S).map fun b =>
      (fflat rows (r + S * g + S * S * b),
       fflat rows (r + S * g + S * S * b + S * S * S),
       fflat rows (r + S * g + S * S * b + 2 * (S * S * S))))
  else none

/-- numpy reshape([-1, 3], order='F') of a cubic (S, S, S, 3) grid: row i is
the entry at (i mod S, i div S mod S, i div S^2). -/
def flattenF (t : Cube) : List V3 :=
  (List.range (t.length * t.length * t.length)).map fun i =>
    cubeGet t (i % t.length) (i / t.length % t.length) (i / (t.length * t.length))

/-- The image of a cubic grid under a scalar map applied componentwise:
what reading back a written cube reproduces, with the map being the
rounding denoted by the chosen formatting precision. -/
def mapCube (φ : ℚ → ℚ) (S : ℕ) (t : Cube) : Cube :=
  (List.range S).map fun r => (List.range S).map fun g => (List.range S).map fun b =>
    (φ (cubeGet t r g b).1, φ (cubeGet t r g b).2.1, φ (cubeGet t r g b).2.2)

/-! ### Reader -/

/-- Directive keywords as character lists. -/
def kwTITLE : List Char := ['T', 'I', 'T', 'L', 'E']

/-- LUT_1D_SIZE keyword. -/
def kwLUT1DSIZE : List Char :=
  ['L', 'U', 'T', '_', '1', 'D', '_', 'S', 'I', 'Z', 'E']

/-- LUT_3D_SIZE keyword. -/
def kwLUT3DSIZE : List Char :=
  ['L', 'U', 'T', '_', '3', 'D', '_', 'S', 'I', 'Z', 'E']

/-- LUT_1D_INPUT_RANGE keyword. -/
def kwLUT1DRANGE : List Char :=
  ['L', 'U', 'T', '_', '1', 'D', '_', 'I', 'N', 'P', 'U', 'T', '_', 'R', 'A', 'N', 'G', 'E']

/-- LUT_3D_INPUT_RANGE keyword. -/
def kwLUT3DRANGE : List Char :=
  ['L', 'U', 'T', '_', '3', 'D', '_', 'I', 'N', 'P', 'U', 'T', '_', 'R', 'A', 'N', 'G', 'E']

/-- Scan state of read_LUT_ResolveCube: title, declared sizes, accumulated
data rows and comments, which size directives were seen, and the two
domains of the LUTSequence(LUT2D(), LUT3D()) work object. -/
structure RState where
  title : String
  size2D : ℕ
  size3D : ℕ
  rows : List (List ℚ)
  comments : List String
  has2D : Bool
  has3D : Bool
  dom2D : Domain
  dom3D : Domain
deriving DecidableEq

/-- re.sub('_|-|\\.', ' ', stem): normalise the file name stem. -/
def normalizeStem (s : String) : String :=
  String.mk (s.data.map fun c => if c = '_' ∨ c = '-' ∨ c = '.' then ' ' else c)

/-- Initial scan state for a given file name stem. -/
def initState (stem : String) : RState :=
  ⟨normalizeStem stem, 2, 2, [], [], false, false, defaultDomain, defaultDomain⟩

/-- Dispatch of the reader's scan loop on an already stripped line. -/
def processTrimmed (st : RState) (cs : List Char) : Except String RState :=
  if cs = [] then .ok st
  else if cs.head? = some '#' then
    .ok { st with comments := st.comments ++ [String.mk (trimChars cs.tail)] }
  else
    match splitWsAux cs [] with
    | [] => .ok st
    | t0 :: rest =>
      if t0 = kwTITLE then
        .ok { st with title := String.mk (dropEdges (joinSpace rest)) }
      else if t0 = kwLUT1DRANGE then
        match mapOptQ rest with
        | some ds => .ok { st with dom2D := ds.map fun x => (x, x, x) }
        | none => .error "ValueError: could not convert string to float"
      else if t0 = kwLUT3DRANGE then
        match mapOptQ rest with
        | some ds => .ok { st with dom3D := ds.map fun x => (x, x, x) }
        | none => .error "ValueError: could not convert string to float"
      else if t0 = kwLUT1DSIZE then
        match rest with
        | [] => .error "IndexError: list index out of range"
        | t1 :: _ =>
          match parseNatTok t1 with
          | some n => .ok { st with has2D := true, size2D := n }
          | none => .error "ValueError: invalid literal for int"
      else if t0 = kwLUT3DSIZE then
        match rest with
        | [] => .error "IndexError: list index out of range"
        | t1 :: _ =>
          match parseNatTok t1 with
          | some n => .ok { st with has3D := true, size3D := n }
          | none => .error "ValueError: invalid literal for int"
      else
        match mapOptQ (t0 :: rest) with
        | some row => .ok { st with rows := st.rows ++ [row] }
        | none => .error "ValueError: could not convert string to float"

/-- One line of the reader's scan loop: strip, then dispatch. -/
def processLine (st : RState) (line : String) : Except String RState :=
  processTrimmed st (trimChars line.data)

/-- The reader's scan loop over all lines. -/
def processLines (st : RState) : List String → Except String RState
  | [] => .ok st
  | l :: ls =>
    match processLine st l with
    | .ok st2 => processLines st2 ls
    | .error e => .error e

/-- Result of the reader: a shaper, a cube, or a shaper-cube sequence. -/
inductive ReadResult where
  | shaper2D (l : LUT2D)
  | cube3D (l : LUT3D)
  | seqLUT (s : LUT2D) (c : LUT3D)
deriving DecidableEq

/-- Classification after the scan (the if has_2D and has_3D ladder): split
or reshape the accumulated rows and build the returned object; with
neither directive present the Python function returns None, modelled as
ok none. -/
def classify (st : RState) : Except String (Option ReadResult) :=
  if st.has2D ∧ st.has3D then
    match reshapeF st.size3D (st.rows.drop st.size2D) with
    | some cube =>
      .ok (some (.seqLUT
        { name := st.title ++ " - Shaper", domain := st.dom2D,
          table := st.rows.take st.size2D, comments := [] }
        { name := st.title ++ " - Cube", domain := st.dom3D,
          table := cube, comments := st.comments }))
    | none => .error "ValueError: cannot reshape array"
  else if st.has2D then
    .ok (some (.shaper2D
      { name := st.title, domain := st.dom2D, table := st.rows, comments := st.comments }))
  else if st.has3D then
    match reshapeF st.size3D st.rows with
    | some cube =>
      .ok (some (.cube3D
        { name := st.title, domain := st.dom3D, table := cube, comments := st.comments }))
    | none => .error "ValueError: cannot reshape array"
  else .ok none

/-- read_LUT_ResolveCube: scan the lines starting from the normalised file
name stem, then classify. -/
def readLUT (stem : String) (lines : List String) : Except String (Option ReadResult) :=
  match processLines (initState stem) lines with
  | .ok st => classify st
  | .error e => .error e

/-! ### Writer -/

/-- len(np.unique(domain)): number of distinct scalars in a domain array. -/
def uniqueCount (dom : Domain) : ℕ :=
  (dom.flatMap fun v => [v.1, v.2.1, v.2.2]).dedup.length

/-- Modelled from the spec: the LUT1D to LUT2D conversion
LUT[0].as_LUT(LUT2D) (the container code is outside src/).  Per the spec a
1-D linear table is an alias for a shaper table: the single channel is
broadcast to the three channels, the (min, max) domain to domain rows;
name and comments carry over. -/
def as2D (l : LUT1D) : LUT2D :=
  { name := l.name,
    domain := [(l.domain.1, l.domain.1, l.domain.1), (l.domain.2, l.domain.2, l.domain.2)],
    table := l.table.map fun x => [x, x, x],
    comments := l.comments }

/-- The zero-use LUT2D placeholder for an absent shaper stage: only its
default domain is ever read by the writer. -/
def defaultLUT2D : LUT2D := { name := "", domain := defaultDomain, table := [], comments := [] }

/-- The zero-use LUT3D placeholder for an absent cube stage. -/
def defaultLUT3D : LUT3D := { name := "", domain := defaultDomain, table := [], comments := [] }

/-- Accepted writer inputs: LUT1D, LUT2D, LUT3D, or a two-stage sequence of
a 1D-or-2D shaper and a 3D cube. -/
inductive WLUT where
  | oneD (l : LUT1D)
  | twoD (l : LUT2D)
  | threeD (l : LUT3D)
  | seqW (fst : LUT1D ⊕ LUT2D) (snd : LUT3D)
deriving DecidableEq

/-- Normalisation of write_LUT_ResolveCube: canonical
(shaper, cube, has_2D, has_3D, title) slots. -/
def stages : WLUT → LUT2D × LUT3D × Bool × Bool × String
  | .oneD l => (as2D l, defaultLUT3D, true, false, l.name)
  | .twoD l => (l, defaultLUT3D, true, false, l.name)
  | .threeD l => (defaultLUT2D, l, false, true, l.name)
  | .seqW (.inl l1) cu => (as2D l1, cu, true, true, cu.name)
  | .seqW (.inr l2) cu => (l2, cu, true, true, cu.name)

/-- Normalised shaper slot of an accepted input. -/
def shOf (lut : WLUT) : LUT2D := (stages lut).1

/-- Normalised cube slot of an accepted input. -/
def cuOf (lut : WLUT) : LUT3D := (stages lut).2.1

/-- Whether the shaper stage is real. -/
def has2DOf (lut : WLUT) : Bool := (stages lut).2.2.1

/-- Whether the cube stage is real. -/
def has3DOf (lut : WLUT) : Bool := (stages lut).2.2.2.1

/-- The output title of an accepted input. -/
def nameOf (lut : WLUT) : String := (stages lut).2.2.2.2

/-- TITLE line. -/
def titleLine (nm : String) : String :=
  String.mk (kwTITLE ++ (' ' :: '"' :: (nm.data ++ ['"'])))

/-- Comment line. -/
def commentLine (cm : String) : String := String.mk ('#' :: ' ' :: cm.data)

/-- LUT_1D_SIZE line. -/
def size1DLine (n : ℕ) : String := String.mk (kwLUT1DSIZE ++ ' ' :: natReprChars n)

/-- LUT_3D_SIZE line. -/
def size3DLine (n : ℕ) : String := String.mk (kwLUT3DSIZE ++ ' ' :: natReprChars n)

/-- LUT_1D_INPUT_RANGE line with channel-0 endpoints. -/
def range1DLine (dec : ℕ) (lo hi : ℚ) : String :=
  String.mk (kwLUT1DRANGE ++ (' ' :: (fmtChars dec lo ++ (' ' :: fmtChars dec hi))))

/-- LUT_3D_INPUT_RANGE line with channel-0 endpoints. -/
def range3DLine (dec : ℕ) (lo hi : ℚ) : String :=
  String.mk (kwLUT3DRANGE ++ (' ' :: (fmtChars dec lo ++ (' ' :: fmtChars dec hi))))

/-- A formatted data row (three scalars, space separated). -/
def fmtV3 (dec : ℕ) (v : V3) : String :=
  String.mk (fmtChars dec v.1 ++ (' ' :: (fmtChars dec v.2.1 ++ (' ' :: fmtChars dec v.2.2))))

/-- _format_array on a raw row: uses the first three entries, IndexError
when there are fewer. -/
def formatRow (dec : ℕ) : List ℚ → Except String String
  | a :: b :: c :: _ => .ok (fmtV3 dec (a, b, c))
  | _ => .error "IndexError: Replacement index out of range"

/-- Format every shaper row, propagating the first failure. -/
def mapExcRows (dec : ℕ) : List (List ℚ) → Except String (List String)
  | [] => .ok []
  | r :: rs =>
    match formatRow dec r with
    | .error e => .error e
    | .ok s =>
      match mapExcRows dec rs with
      | .error e => .error e
      | .ok ss => .ok (s :: ss)

/-- The LUT_1D_INPUT_RANGE block: nothing when the domain equals the
default, otherwise one line with the channel-0 endpoints (IndexError on a
domain with fewer than two rows). -/
def rangeBlock1D (dec : ℕ) (dom : Domain) : Except String (List String) :=
  if dom = defaultDomain then .ok []
  else
    match dom with
    | d0 :: d1 :: _ => .ok [range1DLine dec d0.1 d1.1]
    | _ => .error "IndexError: list index out of range"

/-- The LUT_3D_INPUT_RANGE block. -/
def rangeBlock3D (dec : ℕ) (dom : Domain) : Except String (List String) :=
  if dom = defaultDomain then .ok []
  else
    match dom with
    | d0 :: d1 :: _ => .ok [range3DLine dec d0.1 d1.1]
    | _ => .error "IndexError: list index out of range"

/-- Serialisation core of write_LUT_ResolveCube on the normalised slots:
the domain assertion, the two size assertions, then the fixed section
order (title, shaper comments, cube comments, sizes with optional ranges,
shaper rows with one blank line, Fortran-flattened cube rows). -/
def writeCore (sh : LUT2D) (cu : LUT3D) (has2D has3D : Bool) (nm : String)
    (dec : ℕ) : Except String (List String) :=
  if ¬ (uniqueCount sh.domain = 2 ∧ uniqueCount cu.domain = 2) then
    .error "AssertionError: LUT domain must be 1D!"
  else if has2D ∧ ¬ (2 ≤ sh.size ∧ sh.size ≤ 65536) then
    .error "AssertionError: Shaper size must be in domain [2, 65536]!"
  else if has3D ∧ ¬ (2 ≤ cu.size ∧ cu.size ≤ 256) then
    .error "AssertionError: Cube size must be in domain [2, 256]!"
  else do
    let blk2 ←
      if has2D then do
        let rb ← rangeBlock1D dec sh.domain
        pure (size1DLine sh.table.length :: rb)
      else pure []
    let blk3 ←
      if has3D then do
        let rb ← rangeBlock3D dec cu.domain
        pure (size3DLine cu.table.length :: rb)
      else pure []
    let rows2 ←
      if has2D then do
        let rs ← mapExcRows dec sh.table
        pure (rs ++ [""])
      else pure []
    let rows3 : List String := if has3D then (flattenF cu.table).map (fmtV3 dec) else []
    pure ([titleLine nm] ++ sh.comments.map commentLine ++ cu.comments.map commentLine ++
      blk2 ++ blk3 ++ rows2 ++ rows3)

/-- The lines write_LUT_ResolveCube writes for an accepted input. -/
def writeResult (lut : WLUT) (dec : ℕ) : Except String (List String) :=
  match stages lut with
  | (sh, cu, h2, h3, nm) => writeCore sh cu h2 h3 nm dec

/-- The caller's input object after write_LUT_ResolveCube returns: the
statement LUT[0] = LUT[0].as_LUT(LUT2D) overwrites the first element of a
LUTSequence argument whose first element is a LUT1D; every other input is
only read. -/
def writePost : WLUT → WLUT
  | .seqW (.inl l1) cu => .seqW (.inr (as2D l1)) cu
  | lut => lut

/-- write_LUT_ResolveCube: the written lines and the caller's object after
the call. -/
def writeLUT (lut : WLUT) (dec : ℕ) : Except String (List String) × WLUT :=
  (writeResult lut dec, writePost lut)

instance {ε α : Type} [DecidableEq ε] [DecidableEq α] : DecidableEq (Except ε α)
  | .ok a, .ok b => if h : a = b then .isTrue (by rw [h]) else .isFalse (by simp [h])
  | .ok _, .error _ => .isFalse (by simp)
  | .error _, .ok _ => .isFalse (by simp)
  | .error e, .error f => if h : e = f then .isTrue (by rw [h]) else .isFalse (by simp [h])

/-! ### Predicates used in claim statements -/

/-- The string contains no newline: the condition under which a string
occupies one line of the written file. -/
def NoNL (s : String) : Prop := '\n' ∉ s.data

instance (s : String) : Decidable (NoNL s) := by unfold NoNL; infer_instance

/-- The string carries no surrounding whitespace (str.strip leaves it
unchanged). -/
def TrimInv (s : String) : Prop := trimChars s.data = s.data

instance (s : String) : Decidable (TrimInv s) := by unfold TrimInv; infer_instance

instance (t : List Char) : Decidable (CleanTok t) := by
  unfold CleanTok; infer_instance

/-- A rectilinear domain in the sense of the spec: every channel shares
the same two distinct endpoints. -/
def RectDomain (dom : Domain) : Prop :=
  ∃ a b : ℚ, a ≠ b ∧ dom = [(a, a, a), (b, b, b)]

/-- The line is a LUT_1D_INPUT_RANGE directive line: the keyword followed
by a space. -/
def Starts1DRange (l : String) : Prop := ∃ r, l.data = kwLUT1DRANGE ++ (' ' :: r)

/-- The line is a LUT_3D_INPUT_RANGE directive line. -/
def Starts3DRange (l : String) : Prop := ∃ r, l.data = kwLUT3DRANGE ++ (' ' :: r)

/-- A line the reader would classify as a data row: nonempty after
stripping, no leading comment marker, and a first token that is none of
the five directives. -/
def IsDataLine (l : String) : Prop :=
  let cs := trimChars l.data
  cs ≠ [] ∧ cs.head? ≠ some '#' ∧
    ∀ t0 rest, splitWsAux cs [] = t0 :: rest →
      t0 ≠ kwTITLE ∧ t0 ≠ kwLUT1DRANGE ∧ t0 ≠ kwLUT3DRANGE ∧
      t0 ≠ kwLUT1DSIZE ∧ t0 ≠ kwLUT3DSIZE

/-- The triple held in the first three cells of a raw data row. -/
def rowV3 (row : List ℚ) : V3 := (row.getD 0 0, row.getD 1 0, row.getD 2 0)

/-! ### Concrete fixtures used by the witness theorems -/

/-- A well-formed 2x2x2 cubic grid. -/
def wCube2 : Cube :=
  [[[(0, 0, 0), (0, 0, 0)], [(0, 0, 0), (0, 0, 0)]],
   [[(0, 0, 0), (0, 0, 0)], [(0, 0, 0), (0, 0, 0)]]]

/-- A shaper with a non-default integer domain and one comment. -/
def exLUT2D : LUT2D := ⟨"A", [(-1, -1, -1), (3, 3, 3)], [[0, 0, 0], [3, 3, 3]], ["c1"]⟩

/-- A shaper with the default domain and one comment. -/
def exShaper2 : LUT2D := ⟨"A", defaultDomain, [[0, 0, 0], [1, 1, 1]], ["a"]⟩

/-- A cube with the default domain and one comment. -/
def exLUT3D : LUT3D := ⟨"B", defaultDomain, wCube2, ["b"]⟩

/-- Scan state after reading a minimal combined (shaper, cube) file. -/
def exC3st : RState :=
  ⟨"t", 1, 1, [[0, 0, 0], [0, 0, 0]], [], true, true, defaultDomain, defaultDomain⟩

/-- The 1×1×1 cube grid built from the second data row of that file. -/
def exC3cube : Cube := [[[((0 : ℚ), (0 : ℚ), (0 : ℚ))]]]

/-- The lines written for the exLUT2D shaper at two decimals. -/

def exLines2D : List String :=
  [titleLine "A", commentLine "c1", size1DLine 2, range1DLine 2 (-1) 3,
   fmtV3 2 (0, 0, 0), fmtV3 2 (3, 3, 3), ""]

/-! ### Lemmas: trimming and splitting -/

theorem dropWhile_eq_self_of_head {p : Char → Bool} {cs : List Char}
    (h : ∀ c ∈ cs.head?, p c = false) : cs.dropWhile p = cs := by
  cases cs with
  | nil => rfl
  | cons c t =>
    have hc : p c = false := h c rfl
    simp [List.dropWhile_cons, hc]

theorem dropWhile_append_of_all {p : Char → Bool} {w r : List Char}
    (h : ∀ c ∈ w, p c = true) : (w ++ r).dropWhile p = r.dropWhile p := by
  induction w with
  | nil => rfl
  | cons c t ih =>
    have hc : p c = true := h c (by simp)
    simp only [List.cons_append, List.dropWhile_cons, hc, if_true]
    exact ih fun c hm => h c (by simp [hm])

theorem dropWhile_idem {p : Char → Bool} {cs : List Char} :
    (cs.dropWhile p).dropWhile p = cs.dropWhile p := by
  induction cs with
  | nil => rfl
  | cons c t ih =>
    by_cases hc : p c = true
    · simp [List.dropWhile_cons, hc, ih]
    · simp only [Bool.not_eq_true] at hc
      simp [List.dropWhile_cons, hc]

theorem trimChars_eq_rl (cs : List Char) : trimChars cs = rtrimC (ltrimC cs) := rfl

theorem rtrimC_cons_of_nonws {c : Char} {t : List Char} (hc : c.isWhitespace = false) :
    rtrimC (c :: t) = c :: rtrimC t := by
  unfold rtrimC
  rw [List.reverse_cons, List.dropWhile_append]
  by_cases h : (t.reverse.dropWhile Char.isWhitespace).isEmpty
  · rw [if_pos h]
    rw [List.isEmpty_iff] at h
    simp [h, hc]
  · rw [if_neg h]
    simp

theorem ltrimC_cons_of_nonws {c : Char} {t : List Char} (hc : c.isWhitespace = false) :
    ltrimC (c :: t) = c :: t := by
  simp [ltrimC, List.dropWhile_cons, hc]

theorem ltrimC_cons_of_ws {c : Char} {t : List Char} (hc : c.isWhitespace = true) :
    ltrimC (c :: t) = ltrimC t := by
  simp [ltrimC, List.dropWhile_cons, hc]

theorem rtrimC_cons_of_ws {c : Char} {t : List Char} (hc : c.isWhitespace = true) :
    rtrimC (c :: t) = if (t.reverse.dropWhile Char.isWhitespace).isEmpty
      then [] else c :: rtrimC t := by
  unfold rtrimC
  rw [List.reverse_cons, List.dropWhile_append]
  by_cases h : (t.reverse.dropWhile Char.isWhitespace).isEmpty
  · rw [if_pos h, if_pos h]
    simp [hc]
  · rw [if_neg h, if_neg h]
    simp

theorem ltrim_rtrim_comm (cs : List Char) : ltrimC (rtrimC cs) = rtrimC (ltrimC cs) := by
  induction cs with
  | nil => rfl
  | cons c t ih =>
    by_cases hc : c.isWhitespace = true
    · rw [ltrimC_cons_of_ws hc, rtrimC_cons_of_ws hc]
      by_cases h : (t.reverse.dropWhile Char.isWhitespace).isEmpty
      · rw [if_pos h]
        have ht : rtrimC t = [] := by
          rw [List.isEmpty_iff] at h
          simp [rtrimC, h]
        rw [← ih, ht]
      · rw [if_neg h, ltrimC_cons_of_ws hc, ih]
    · simp only [Bool.not_eq_true] at hc
      rw [ltrimC_cons_of_nonws hc, rtrimC_cons_of_nonws hc, ltrimC_cons_of_nonws hc]

theorem rtrimC_idem (cs : List Char) : rtrimC (rtrimC cs) = rtrimC cs := by
  unfold rtrimC
  rw [List.reverse_reverse, dropWhile_idem]

theorem trimChars_eq_self {cs : List Char}
    (hh : ∀ c ∈ cs.head?, c.isWhitespace = false)
    (hl : ∀ c ∈ cs.getLast?, c.isWhitespace = false) : trimChars cs = cs := by
  unfold trimChars
  rw [dropWhile_eq_self_of_head hh]
  rw [dropWhile_eq_self_of_head (by simpa [List.head?_reverse] using hl)]
  exact List.reverse_reverse cs

theorem splitWsAux_nil (acc : List Char) :
    splitWsAux [] acc = if acc = [] then [] else [acc.reverse] := rfl

theorem splitWsAux_nonws {t : List Char} (cs acc : List Char)
    (h : ∀ c ∈ t, c.isWhitespace = false) :
    splitWsAux (t ++ cs) acc = splitWsAux cs (t.reverse ++ acc) := by
  induction t generalizing acc with
  | nil => simp
  | cons c ts ih =>
    have hc : c.isWhitespace = false := h c (by simp)
    simp only [List.cons_append, splitWsAux, hc, Bool.false_eq_true, if_false,
      List.append_eq]
    rw [ih (c :: acc) fun x hx => h x (by simp [hx])]
    simp

theorem splitWsAux_ws_cons {c : Char} (cs acc : List Char) (hc : c.isWhitespace = true) :
    splitWsAux (c :: cs) acc =
      if acc = [] then splitWsAux cs [] else acc.reverse :: splitWsAux cs [] := by
  simp [splitWsAux, hc]

theorem splitWsAux_single {t : List Char} (acc : List Char) (ht : CleanTok t) :
    splitWsAux t acc = [(t.reverse ++ acc).reverse] := by
  have := @splitWsAux_nonws t [] acc ht.2
  rw [List.append_nil] at this
  rw [this, splitWsAux_nil, if_neg]
  intro h
  exact ht.1 (by simpa using congrArg List.reverse (by simpa using congrArg (List.take t.length) h))

theorem splitWsAux_joinSpace : ∀ ts : List (List Char), (∀ t ∈ ts, CleanTok t) →
    splitWsAux (joinSpace ts) [] = ts
  | [], _ => rfl
  | [t], h => by
    rw [joinSpace, splitWsAux_single [] (h t (by simp))]
    simp
  | t :: t2 :: ts, h => by
    rw [joinSpace, splitWsAux_nonws _ [] (h t (by simp)).2,
      splitWsAux_ws_cons _ _ (by decide)]
    rw [if_neg (by simp [(h t (by simp)).1])]
    rw [splitWsAux_joinSpace (t2 :: ts) fun x hx => h x (by simp at hx ⊢; tauto)]
    simp

/-! ### Lemmas: characters and digits -/

theorem isDigit_ne {c c0 : Char} (h : c.isDigit = true) (h0 : c0.isDigit = false) :
    c ≠ c0 := fun e => by subst e; rw [h] at h0; cases h0

theorem isDigit_not_ws {c : Char} (h : c.isDigit = true) : c.isWhitespace = false := by
  by_contra hw
  simp only [Bool.not_eq_false] at hw
  have hor : ((c = ' ' ∨ c = '\t') ∨ c = '\r') ∨ c = '\n' := by
    simpa [Char.isWhitespace, Bool.or_eq_true, decide_eq_true_eq] using hw
  rcases hor with ((h1 | h1) | h1) | h1 <;> subst h1 <;> simp at h

theorem digitChar_isDigit {d : ℕ} (h : d < 10) : (digitChar d).isDigit = true := by
  interval_cases d <;> decide

theorem charDigit_digitChar {d : ℕ} (h : d < 10) : charDigit (digitChar d) = d := by
  interval_cases d <;> decide

theorem natReprChars_ne_nil (n : ℕ) : natReprChars n ≠ [] := by
  unfold natReprChars
  by_cases h : n = 0
  · simp [h]
  · simp only [h, if_false]
    intro he
    have hne : Nat.digits 10 n ≠ [] := Nat.digits_ne_nil_iff_ne_zero.2 h
    simp only [List.reverse_eq_nil_iff, List.map_eq_nil_iff] at he
    exact hne he

theorem natReprChars_mem {n : ℕ} {c : Char} (h : c ∈ natReprChars n) :
    ∃ d, d < 10 ∧ c = digitChar d := by
  unfold natReprChars at h
  by_cases h0 : n = 0
  · simp [h0] at h
    exact ⟨0, by norm_num, by rw [h]; rfl⟩
  · simp only [h0, if_false, List.mem_reverse, List.mem_map] at h
    obtain ⟨d, hd, he⟩ := h
    exact ⟨d, Nat.digits_lt_base (by norm_num) hd, he.symm⟩

theorem natReprChars_isDigit {n : ℕ} {c : Char} (h : c ∈ natReprChars n) :
    c.isDigit = true := by
  obtain ⟨d, hd, he⟩ := natReprChars_mem h
  rw [he]; exact digitChar_isDigit hd

theorem foldDigits_map_digitChar (L : List ℕ) (hd : ∀ d ∈ L, d < 10) (a : ℕ) :
    (L.map digitChar).foldl (fun a c => 10 * a + charDigit c) a =
      L.foldl (fun a d => 10 * a + d) a := by
  induction L generalizing a with
  | nil => rfl
  | cons x xs ih =>
    simp only [List.map_cons, List.foldl_cons]
    rw [charDigit_digitChar (hd x (by simp))]
    exact ih (fun d hm => hd d (by simp [hm])) _

theorem foldl_reverse_ofDigits (L : List ℕ) (a : ℕ) :
    L.reverse.foldl (fun a d => 10 * a + d) a = a * 10 ^ L.length + Nat.ofDigits 10 L := by
  induction L generalizing a with
  | nil => simp [Nat.ofDigits]
  | cons x xs ih =>
    simp only [List.reverse_cons, List.foldl_append, List.foldl_cons, List.foldl_nil]
    rw [ih, Nat.ofDigits_cons, List.length_cons, pow_succ]
    ring

theorem foldDigits_natReprChars (n : ℕ) : foldDigits (natReprChars n) = n := by
  unfold natReprChars foldDigits
  by_cases h0 : n = 0
  · simp [h0, charDigit]
  · simp only [h0, if_false]
    rw [← List.map_reverse, foldDigits_map_digitChar _
      (fun d hd => Nat.digits_lt_base (by norm_num) (List.mem_reverse.1 hd))]
    rw [foldl_reverse_ofDigits, Nat.ofDigits_digits]
    ring

theorem natReprChars_length_le {n d : ℕ} (hd : 1 ≤ d) (h : n < 10 ^ d) :
    (natReprChars n).length ≤ d := by
  unfold natReprChars
  by_cases h0 : n = 0
  · simpa [h0] using hd
  · simp only [h0, if_false, List.length_reverse, List.length_map]
    rw [Nat.digits_len 10 n (by norm_num) h0]
    have := (Nat.lt_pow_iff_log_lt (by norm_num : (1:ℕ) < 10) h0).1 h
    omega

/-! ### Lemmas: parsing formatted numerals -/

theorem mem_of_getLastQ {l : List Char} {a : Char} (h : l.getLast? = some a) : a ∈ l := by
  cases l with
  | nil => simp at h
  | cons x t =>
    rw [List.getLast?_eq_getLast _ (by simp)] at h
    exact (Option.some_inj.1 h) ▸ List.getLast_mem _

theorem takeWhile_all_digits {F : List Char} (hF : ∀ c ∈ F, c.isDigit = true) :
    F.takeWhile Char.isDigit = F ∧ F.dropWhile Char.isDigit = [] := by
  induction F with
  | nil => exact ⟨rfl, rfl⟩
  | cons c t ih =>
    have hc : c.isDigit = true := hF c (by simp)
    have iht := ih fun x hx => hF x (by simp [hx])
    rw [List.takeWhile_cons, List.dropWhile_cons]
    simp [hc, iht.1, iht.2]

theorem splitDigits_append {L R : List Char} (hL : ∀ c ∈ L, c.isDigit = true)
    (hR : ∀ c ∈ R.head?, c.isDigit = false) :
    (L ++ R).takeWhile Char.isDigit = L ∧ (L ++ R).dropWhile Char.isDigit = R := by
  induction L with
  | nil =>
    cases R with
    | nil => exact ⟨rfl, rfl⟩
    | cons r t =>
      have hr : r.isDigit = false := hR r rfl
      rw [List.nil_append, List.takeWhile_cons, List.dropWhile_cons]
      simp [hr]
  | cons c t ih =>
    have hc : c.isDigit = true := hL c (by simp)
    have iht := ih fun x hx => hL x (by simp [hx])
    rw [List.cons_append, List.takeWhile_cons, List.dropWhile_cons]
    simp [hc, iht.1, iht.2]

theorem parseUnsigned_digits {L : List Char} (hne : L ≠ [])
    (hL : ∀ c ∈ L, c.isDigit = true) :
    parseUnsigned L = some (foldDigits L : ℚ) := by
  have h := takeWhile_all_digits hL
  unfold parseUnsigned
  rw [h.1, h.2]
  simp [hne]

theorem parseUnsigned_with_frac {L F : List Char} (hne : L ≠ [])
    (hL : ∀ c ∈ L, c.isDigit = true) (hF : ∀ c ∈ F, c.isDigit = true) :
    parseUnsigned (L ++ '.' :: F) =
      some ((foldDigits L : ℚ) + (foldDigits F : ℚ) / 10 ^ F.length) := by
  have hR : ∀ c ∈ ('.' :: F).head?, c.isDigit = false := by
    intro c hc
    simp only [List.head?_cons, Option.mem_def, Option.some_inj] at hc
    subst hc
    decide
  have h := splitDigits_append hL hR
  unfold parseUnsigned
  rw [h.1, h.2]
  have hf := takeWhile_all_digits hF
  simp only [hf.1, hf.2]
  simp [hne]

theorem parseDecCore_head_digit {c : Char} {t : List Char} (hc : c.isDigit = true) :
    parseDecCore (c :: t) = parseUnsigned (c :: t) := by
  simp only [parseDecCore]
  rw [if_neg (isDigit_ne hc (by decide)), if_neg (isDigit_ne hc (by decide))]

theorem parseDecCore_neg (t : List Char) :
    parseDecCore ('-' :: t) = (parseUnsigned t).map (fun q => -q) := by
  simp [parseDecCore]

theorem foldl_replicate_zero (k : ℕ) :
    (List.replicate k '0').foldl (fun a c => 10 * a + charDigit c) 0 = 0 := by
  induction k with
  | zero => rfl
  | succ m ih => simpa [List.replicate_succ, charDigit] using ih

theorem foldDigits_replicate_append (k : ℕ) (ds : List Char) :
    foldDigits (List.replicate k '0' ++ ds) = foldDigits ds := by
  unfold foldDigits
  rw [List.foldl_append, foldl_replicate_zero]

theorem fracChars_isDigit {d fp : ℕ} {c : Char} (h : c ∈ fracChars d fp) :
    c.isDigit = true := by
  unfold fracChars at h
  rw [List.mem_append] at h
  rcases h with h | h
  · rw [List.eq_of_mem_replicate h]; decide
  · exact natReprChars_isDigit h

theorem foldDigits_fracChars (d fp : ℕ) : foldDigits (fracChars d fp) = fp := by
  unfold fracChars
  rw [foldDigits_replicate_append, foldDigits_natReprChars]

theorem fracChars_length {d fp : ℕ} (hd : 1 ≤ d) (h : fp < 10 ^ d) :
    (fracChars d fp).length = d := by
  unfold fracChars
  rw [List.length_append, List.length_replicate]
  have := natReprChars_length_le hd h
  omega

theorem parseUnsigned_fmtCore (a d : ℕ) :
    parseUnsigned (natReprChars (a / 10 ^ d) ++
        (if d = 0 then [] else '.' :: fracChars d (a % 10 ^ d))) =
      some ((a : ℚ) / 10 ^ d) := by
  by_cases hd : d = 0
  · subst hd
    rw [if_pos rfl, List.append_nil, pow_zero, Nat.div_one]
    rw [parseUnsigned_digits (natReprChars_ne_nil a) (fun c hc => natReprChars_isDigit hc)]
    rw [foldDigits_natReprChars]
    norm_num
  · rw [if_neg hd]
    rw [parseUnsigned_with_frac (natReprChars_ne_nil _)
      (fun c hc => natReprChars_isDigit hc) (fun c hc => fracChars_isDigit hc)]
    rw [foldDigits_natReprChars, foldDigits_fracChars,
      fracChars_length (by omega) (Nat.mod_lt _ (by positivity))]
    have hmod : 10 ^ d * (a / 10 ^ d) + a % 10 ^ d = a := Nat.div_add_mod a (10 ^ d)
    have hA : ((a : ℚ)) = 10 ^ d * ((a / 10 ^ d : ℕ) : ℚ) + ((a % 10 ^ d : ℕ) : ℚ) := by
      exact_mod_cast hmod.symm
    rw [hA]
    have h10 : ((10 : ℚ) ^ d) ≠ 0 := by positivity
    congr 1
    field_simp
    ring

theorem parseDecCore_fmtChars (d : ℕ) (x : ℚ) :
    parseDecCore (fmtChars d x) = some (rnd d x) := by
  unfold fmtChars rnd
  set n : ℤ := round (x * 10 ^ d) with hn
  set a : ℕ := n.natAbs with ha
  by_cases hneg : n < 0
  · rw [if_pos hneg, List.singleton_append, List.cons_append, parseDecCore_neg,
      parseUnsigned_fmtCore]
    have haq : (a : ℚ) = -(n : ℚ) := by
      have haz : (a : ℤ) = -n := by omega
      exact_mod_cast haz
    rw [Option.map_some', haq]
    congr 1
    ring
  · rw [if_neg hneg, List.nil_append]
    obtain ⟨c, t, hct⟩ : ∃ c t, natReprChars (a / 10 ^ d) = c :: t :=
      List.exists_cons_of_ne_nil (natReprChars_ne_nil _)
    have hcd : c.isDigit = true := natReprChars_isDigit (by rw [hct]; simp)
    rw [hct, List.cons_append, parseDecCore_head_digit hcd, ← List.cons_append, ← hct,
      parseUnsigned_fmtCore]
    have haq : (a : ℚ) = (n : ℚ) := by
      have haz : (a : ℤ) = n := by omega
      exact_mod_cast haz
    rw [haq]

theorem abs_rnd_sub_le (d : ℕ) (x : ℚ) : |rnd d x - x| ≤ 1 / 10 ^ d := by
  unfold rnd
  have h10 : (0 : ℚ) < 10 ^ d := by positivity
  have heq : (round (x * 10 ^ d) : ℚ) / 10 ^ d - x =
      ((round (x * 10 ^ d) : ℚ) - x * 10 ^ d) / 10 ^ d := by
    field_simp
    ring
  rw [heq, abs_div, abs_of_pos h10]
  have hb : |(round (x * 10 ^ d) : ℚ) - x * 10 ^ d| ≤ 1 / 2 := by
    rw [abs_sub_comm]
    exact abs_sub_round _
  calc |(round (x * 10 ^ d) : ℚ) - x * 10 ^ d| / 10 ^ d ≤ (1 / 2) / 10 ^ d := by gcongr
    _ ≤ 1 / 10 ^ d := by gcongr; norm_num

theorem fmtChars_mem {d : ℕ} {x : ℚ} {c : Char} (h : c ∈ fmtChars d x) :
    c.isDigit = true ∨ c = '-' ∨ c = '.' := by
  unfold fmtChars at h
  rw [List.mem_append, List.mem_append] at h
  rcases h with (h | h) | h
  · by_cases hneg : round (x * 10 ^ d) < 0
    · rw [if_pos hneg] at h
      simp at h
      right; left; exact h
    · rw [if_neg hneg] at h
      simp at h
  · left; exact natReprChars_isDigit h
  · by_cases hd : d = 0
    · rw [if_pos hd] at h
      simp at h
    · rw [if_neg hd] at h
      rcases List.mem_cons.1 h with h | h
      · right; right; exact h
      · left; exact fracChars_isDigit h

theorem fmtChars_not_ws {d : ℕ} {x : ℚ} {c : Char} (h : c ∈ fmtChars d x) :
    c.isWhitespace = false := by
  rcases fmtChars_mem h with h1 | h1 | h1
  · exact isDigit_not_ws h1
  · subst h1; decide
  · subst h1; decide

theorem fmtChars_head {d : ℕ} {x : ℚ} :
    ∃ c t, fmtChars d x = c :: t ∧ (c.isDigit = true ∨ c = '-') := by
  unfold fmtChars
  by_cases hneg : round (x * 10 ^ d) < 0
  · rw [if_pos hneg, List.singleton_append, List.cons_append]
    exact ⟨'-', _, rfl, Or.inr rfl⟩
  · rw [if_neg hneg, List.nil_append]
    obtain ⟨c, t, hct⟩ : ∃ c t, natReprChars ((round (x * 10 ^ d)).natAbs / 10 ^ d) = c :: t :=
      List.exists_cons_of_ne_nil (natReprChars_ne_nil _)
    refine ⟨c, _, by rw [hct, List.cons_append], Or.inl ?_⟩
    exact natReprChars_isDigit (by rw [hct]; simp)

theorem fmtChars_getLast {d : ℕ} {x : ℚ} {c : Char}
    (h : (fmtChars d x).getLast? = some c) : c.isDigit = true := by
  unfold fmtChars at h
  by_cases hd : d = 0
  · rw [if_pos hd, List.append_nil, List.getLast?_append_of_ne_nil _ (natReprChars_ne_nil _)]
      at h
    exact natReprChars_isDigit (mem_of_getLastQ h)
  · rw [if_neg hd, List.getLast?_append_of_ne_nil _ (by simp)] at h
    have hcons : ('.' :: fracChars d ((round (x * 10 ^ d)).natAbs % 10 ^ d)) =
        ['.'] ++ fracChars d ((round (x * 10 ^ d)).natAbs % 10 ^ d) := rfl
    rw [hcons, List.getLast?_append_of_ne_nil _ (by
      unfold fracChars
      simp [natReprChars_ne_nil])] at h
    exact fracChars_isDigit (mem_of_getLastQ h)

theorem fmtChars_clean (d : ℕ) (x : ℚ) : CleanTok (fmtChars d x) := by
  obtain ⟨c, t, hct, _⟩ := @fmtChars_head d x
  exact ⟨by rw [hct]; simp, fun c hc => fmtChars_not_ws hc⟩

/-! ### Lemmas: axis-major index arithmetic, reshape and flatten -/

theorem getD_range_map {α : Type} (f : ℕ → α) {i n : ℕ} (h : i < n) (dflt : α) :
    ((List.range n).map f).getD i dflt = f i := by
  rw [List.getD_eq_getElem?_getD]
  simp [List.getElem?_map, List.getElem?_range, h]

theorem getD_map_lt {α β : Type} {l : List α} (f : α → β) {i : ℕ} (h : i < l.length)
    (d0 : α) (dflt : β) : (l.map f).getD i dflt = f (l.getD i d0) := by
  rw [List.getD_eq_getElem?_getD, List.getD_eq_getElem?_getD]
  rw [List.getElem?_eq_getElem h, List.getElem?_map, List.getElem?_eq_getElem h]
  rfl

theorem idx_lt {S r g b : ℕ} (hr : r < S) (hg : g < S) (hb : b < S) :
    r + S * g + S * S * b < S * S * S := by
  calc r + S * g + S * S * b < S + S * g + S * S * b := by omega
    _ = S * (1 + g) + S * S * b := by ring
    _ ≤ S * S + S * S * b := by
        have h1 : 1 + g ≤ S := by omega
        exact Nat.add_le_add_right (Nat.mul_le_mul_left _ h1) _
    _ = S * S * (1 + b) := by ring
    _ ≤ S * S * S := Nat.mul_le_mul_left _ (by omega)

theorem idx_decomp {S r g b : ℕ} (hr : r < S) (hg : g < S) :
    (r + S * g + S * S * b) % S = r ∧ (r + S * g + S * S * b) / S % S = g ∧
      (r + S * g + S * S * b) / (S * S) = b := by
  have hS : 0 < S := by omega
  have he : r + S * g + S * S * b = r + S * (g + S * b) := by ring
  have hdiv : (r + S * g + S * S * b) / S = g + S * b := by
    rw [he, Nat.add_mul_div_left _ _ hS, Nat.div_eq_of_lt hr, Nat.zero_add]
  refine ⟨?_, ?_, ?_⟩
  · rw [he, Nat.add_mul_mod_self_left, Nat.mod_eq_of_lt hr]
  · rw [hdiv, Nat.add_mul_mod_self_left, Nat.mod_eq_of_lt hg]
  · have he2 : r + S * g + S * S * b = (r + S * g) + S * S * b := by ring
    have hlt : r + S * g < S * S := by
      calc r + S * g < S + S * g := by omega
        _ = S * (1 + g) := by ring
        _ ≤ S * S := Nat.mul_le_mul_left _ (by omega)
    rw [he2, Nat.add_mul_div_left _ _ (by positivity), Nat.div_eq_of_lt hlt, Nat.zero_add]

theorem add_mul_mod_div (k : ℕ) {base N : ℕ} (hb : base < N) :
    (base + k * N) % N = base ∧ (base + k * N) / N = k := by
  have hN : 0 < N := by omega
  constructor
  · rw [Nat.add_mul_mod_self_right, Nat.mod_eq_of_lt hb]
  · rw [Nat.add_mul_div_right _ _ hN, Nat.div_eq_of_lt hb, Nat.zero_add]

theorem flattenF_length {t : Cube} :
    (flattenF t).length = t.length * t.length * t.length := by
  unfold flattenF
  simp

theorem flattenF_getD {S : ℕ} {t : Cube} (hlen : t.length = S) {i : ℕ}
    (hi : i < S * S * S) (dflt : V3) :
    (flattenF t).getD i dflt = cubeGet t (i % S) (i / S % S) (i / (S * S)) := by
  unfold flattenF
  rw [hlen]
  exact getD_range_map _ hi _

theorem flattenF_first_axis {S : ℕ} {t : Cube} (hlen : t.length = S) {r : ℕ}
    (hr : r < S) (dflt : V3) :
    (flattenF t).getD r dflt = cubeGet t r 0 0 := by
  have hrS : r < S * S * S := lt_of_lt_of_le hr (by nlinarith)
  rw [flattenF_getD hlen hrS]
  have h1 : r % S = r := Nat.mod_eq_of_lt hr
  have h2 : r / S = 0 := Nat.div_eq_of_lt hr
  have h3 : r / (S * S) = 0 := Nat.div_eq_of_lt (lt_of_lt_of_le hr (by nlinarith))
  rw [h1, h2, h3, Nat.zero_mod]

theorem reshapeF_rows_get {S : ℕ} {rows : List (List ℚ)} {cube : Cube}
    (h : reshapeF S rows = some cube) (hw : ∀ row ∈ rows, row.length = 3) :
    ∀ r g b, r < S → g < S → b < S →
      cubeGet cube r g b =
        ((rows.getD (r + S * g + S * S * b) []).getD 0 0,
         (rows.getD (r + S * g + S * S * b) []).getD 1 0,
         (rows.getD (r + S * g + S * S * b) []).getD 2 0) := by
  intro r g b hr hg hb
  unfold reshapeF at h
  by_cases hc : (∀ row ∈ rows, row.length = (rows.headD []).length) ∧
      rows.length * (rows.headD []).length = 3 * (S * S * S)
  · rw [if_pos hc] at h
    have hM : rows.length = S * S * S := by
      cases rows with
      | nil =>
        exfalso
        have h2 := hc.2
        simp only [List.length_nil, Nat.zero_mul] at h2
        have hm : S * S * S = 0 := by omega
        have hS0 : S = 0 := by
          rcases Nat.mul_eq_zero.1 hm with h3 | h3
          · rcases Nat.mul_eq_zero.1 h3 with h4 | h4 <;> exact h4
          · exact h3
        omega
      | cons row0 rest =>
        have hw0 : row0.length = 3 := hw row0 (by simp)
        have h2 := hc.2
        rw [List.headD_cons, hw0, List.length_cons] at h2
        rw [List.length_cons]
        omega
    have hidx : r + S * g + S * S * b < S * S * S := idx_lt hr hg hb
    have hcube : cube = (List.range S).map fun r => (List.range S).map fun g =>
        (List.range S).map fun b =>
          (fflat rows (r + S * g + S * S * b),
           fflat rows (r + S * g + S * S * b + S * S * S),
           fflat rows (r + S * g + S * S * b + 2 * (S * S * S))) :=
      (Option.some_inj.1 h).symm
    unfold cubeGet
    rw [hcube, getD_range_map _ hr, getD_range_map _ hg, getD_range_map _ hb]
    unfold fflat
    rw [hM]
    have e1 := add_mul_mod_div 1 hidx
    have e2 := add_mul_mod_div 2 hidx
    have hm0 : (r + S * g + S * S * b) % (S * S * S) = r + S * g + S * S * b :=
      Nat.mod_eq_of_lt hidx
    have hd0 : (r + S * g + S * S * b) / (S * S * S) = 0 := Nat.div_eq_of_lt hidx
    rw [show r + S * g + S * S * b + S * S * S = r + S * g + S * S * b + 1 * (S * S * S)
      from by ring, e1.1, e1.2, e2.1, e2.2, hm0, hd0]
  · rw [if_neg hc] at h
    cases h

theorem mapCube_length (φ : ℚ → ℚ) (S : ℕ) (t : Cube) : (mapCube φ S t).length = S := by
  unfold mapCube
  simp

theorem mapCube_WF (φ : ℚ → ℚ) (S : ℕ) (t : Cube) : WFCube S (mapCube φ S t) := by
  refine ⟨mapCube_length φ S t, ?_⟩
  intro p hp
  unfold mapCube at hp
  obtain ⟨r, _, hpr⟩ := List.mem_map.1 hp
  refine ⟨by rw [← hpr]; simp, ?_⟩
  intro q hq
  rw [← hpr] at hq
  obtain ⟨g, _, hqg⟩ := List.mem_map.1 hq
  rw [← hqg]
  simp

theorem mapCube_get (φ : ℚ → ℚ) {S : ℕ} (t : Cube) {r g b : ℕ}
    (hr : r < S) (hg : g < S) (hb : b < S) :
    cubeGet (mapCube φ S t) r g b =
      (φ (cubeGet t r g b).1, φ (cubeGet t r g b).2.1, φ (cubeGet t r g b).2.2) := by
  unfold mapCube cubeGet
  rw [getD_range_map _ hr, getD_range_map _ hg, getD_range_map _ hb]

theorem reshapeF_map_flattenF {S : ℕ} {t : Cube} (hlen : t.length = S) (hS : 0 < S)
    (φ : ℚ → ℚ) :
    reshapeF S ((flattenF t).map fun v => [φ v.1, φ v.2.1, φ v.2.2]) =
      some (mapCube φ S t) := by
  set rows := (flattenF t).map fun v => [φ v.1, φ v.2.1, φ v.2.2] with hrows
  have hlenR : rows.length = S * S * S := by
    rw [hrows, List.length_map, flattenF_length, hlen]
  have hw : ∀ row ∈ rows, row.length = 3 := by
    intro row hrow
    rw [hrows] at hrow
    obtain ⟨v, _, hv⟩ := List.mem_map.1 hrow
    rw [← hv]
    rfl
  have hhead : (rows.headD []).length = 3 := by
    have h0 : 0 < rows.length := by rw [hlenR]; positivity
    cases hr2 : rows with
    | nil => rw [hr2] at h0; simp at h0
    | cons a l =>
      rw [List.headD_cons]
      exact hw a (by rw [hr2]; simp)
  have hcond : (∀ row ∈ rows, row.length = (rows.headD []).length) ∧
      rows.length * (rows.headD []).length = 3 * (S * S * S) := by
    refine ⟨fun row hrow => by rw [hhead]; exact hw row hrow, ?_⟩
    rw [hhead, hlenR]
    ring
  have hres : reshapeF S rows = some ((List.range S).map fun r => (List.range S).map fun g =>
      (List.range S).map fun b =>
        (fflat rows (r + S * g + S * S * b),
         fflat rows (r + S * g + S * S * b + S * S * S),
         fflat rows (r + S * g + S * S * b + 2 * (S * S * S)))) := by
    unfold reshapeF
    rw [if_pos hcond]
  rw [hres]
  congr 1
  unfold mapCube
  refine List.map_congr_left fun r hr => ?_
  refine List.map_congr_left fun g hg => ?_
  refine List.map_congr_left fun b hb => ?_
  rw [List.mem_range] at hr hg hb
  have hidx : r + S * g + S * S * b < S * S * S := idx_lt hr hg hb
  have hcg : ∀ k, k < 3 →
      fflat rows (r + S * g + S * S * b + k * (S * S * S)) =
        [φ (cubeGet t r g b).1, φ (cubeGet t r g b).2.1, φ (cubeGet t r g b).2.2].getD k 0 := by
    intro k hk
    unfold fflat
    rw [hlenR]
    have e := add_mul_mod_div k hidx
    rw [e.1, e.2]
    have hltf : r + S * g + S * S * b < (flattenF t).length := by
      rw [flattenF_length, hlen]
      exact hidx
    rw [hrows, getD_map_lt _ hltf (0, 0, 0) []]
    rw [flattenF_getD hlen hidx]
    rw [(idx_decomp hr hg).1, (idx_decomp hr hg).2.1, (idx_decomp hr hg).2.2]
  have h0 := hcg 0 (by omega)
  have h1 := hcg 1 (by omega)
  have h2 := hcg 2 (by omega)
  rw [Nat.zero_mul, Nat.add_zero] at h0
  rw [Nat.one_mul] at h1
  rw [h0, h1, h2]
  rfl

/-! ### Lemmas: the scan loop on writer-shaped lines -/

theorem trimChars_rtrimC (Y : List Char) : trimChars (rtrimC Y) = trimChars Y := by
  rw [trimChars_eq_rl, trimChars_eq_rl, ltrim_rtrim_comm, rtrimC_idem]

theorem trimChars_ws_cons {c : Char} (X : List Char) (hc : c.isWhitespace = true) :
    trimChars (c :: X) = trimChars X := by
  rw [trimChars_eq_rl, trimChars_eq_rl, ltrimC_cons_of_ws hc]

theorem getLast?_cons_of_ne_nil (c : Char) {Z : List Char} (h : Z ≠ []) :
    (c :: Z).getLast? = Z.getLast? := by
  rw [show c :: Z = [c] ++ Z from rfl, List.getLast?_append_of_ne_nil _ h]

theorem trimChars_kw_line (kw Z : List Char) (hkw : CleanTok kw)
    (hlast : ∀ c ∈ Z.getLast?, c.isWhitespace = false) (hZ : Z ≠ []) :
    trimChars (kw ++ ' ' :: Z) = kw ++ ' ' :: Z := by
  apply trimChars_eq_self
  · intro c hc
    obtain ⟨k0, kt, hk⟩ := List.exists_cons_of_ne_nil hkw.1
    rw [hk, List.cons_append, List.head?_cons, Option.mem_def, Option.some_inj] at hc
    subst hc
    exact hkw.2 k0 (by rw [hk]; simp)
  · rw [List.getLast?_append_of_ne_nil _ (by simp), getLast?_cons_of_ne_nil ' ' hZ]
    exact hlast

theorem tokens_kw_line (kw Z : List Char) (hkw : CleanTok kw) :
    splitWsAux (kw ++ ' ' :: Z) [] = kw :: splitWsAux Z [] := by
  rw [@splitWsAux_nonws kw (' ' :: Z) [] hkw.2,
    splitWsAux_ws_cons _ _ (by decide)]
  rw [if_neg (by simp [hkw.1])]
  simp

theorem head_ne_hash_of_kw (kw Z : List Char) (hkw : CleanTok kw)
    (hh : ∀ c ∈ kw.head?, c ≠ '#') : (kw ++ ' ' :: Z).head? ≠ some '#' := by
  obtain ⟨k0, kt, hk⟩ := List.exists_cons_of_ne_nil hkw.1
  rw [hk, List.cons_append, List.head?_cons]
  intro h
  exact hh k0 (by rw [hk]; simp) (Option.some_inj.1 h)

theorem processTrimmed_title {st : RState} {cs : List Char} {rest : List (List Char)}
    (hne : cs ≠ []) (hhash : ¬ cs.head? = some '#')
    (htok : splitWsAux cs [] = kwTITLE :: rest) :
    processTrimmed st cs =
      .ok { st with title := String.mk (dropEdges (joinSpace rest)) } := by
  unfold processTrimmed
  rw [if_neg hne, if_neg hhash]
  simp only [htok]
  simp

theorem processTrimmed_range1D {st : RState} {cs : List Char} {rest : List (List Char)}
    {ds : List ℚ} (hne : cs ≠ []) (hhash : ¬ cs.head? = some '#')
    (htok : splitWsAux cs [] = kwLUT1DRANGE :: rest) (hmap : mapOptQ rest = some ds) :
    processTrimmed st cs = .ok { st with dom2D := ds.map fun x => (x, x, x) } := by
  unfold processTrimmed
  rw [if_neg hne, if_neg hhash]
  simp only [htok]
  simp [hmap, show kwLUT1DRANGE ≠ kwTITLE from by decide]

theorem processTrimmed_range3D {st : RState} {cs : List Char} {rest : List (List Char)}
    {ds : List ℚ} (hne : cs ≠ []) (hhash : ¬ cs.head? = some '#')
    (htok : splitWsAux cs [] = kwLUT3DRANGE :: rest) (hmap : mapOptQ rest = some ds) :
    processTrimmed st cs = .ok { st with dom3D := ds.map fun x => (x, x, x) } := by
  unfold processTrimmed
  rw [if_neg hne, if_neg hhash]
  simp only [htok]
  simp [hmap, show kwLUT3DRANGE ≠ kwTITLE from by decide,
    show kwLUT3DRANGE ≠ kwLUT1DRANGE from by decide]

theorem processTrimmed_size1D {st : RState} {cs t1 : List Char} {tail : List (List Char)}
    {n : ℕ} (hne : cs ≠ []) (hhash : ¬ cs.head? = some '#')
    (htok : splitWsAux cs [] = kwLUT1DSIZE :: t1 :: tail) (hp : parseNatTok t1 = some n) :
    processTrimmed st cs = .ok { st with has2D := true, size2D := n } := by
  unfold processTrimmed
  rw [if_neg hne, if_neg hhash]
  simp only [htok]
  simp [hp, show kwLUT1DSIZE ≠ kwTITLE from by decide,
    show kwLUT1DSIZE ≠ kwLUT1DRANGE from by decide,
    show kwLUT1DSIZE ≠ kwLUT3DRANGE from by decide]

theorem processTrimmed_size3D {st : RState} {cs t1 : List Char} {tail : List (List Char)}
    {n : ℕ} (hne : cs ≠ []) (hhash : ¬ cs.head? = some '#')
    (htok : splitWsAux cs [] = kwLUT3DSIZE :: t1 :: tail) (hp : parseNatTok t1 = some n) :
    processTrimmed st cs = .ok { st with has3D := true, size3D := n } := by
  unfold processTrimmed
  rw [if_neg hne, if_neg hhash]
  simp only [htok]
  simp [hp, show kwLUT3DSIZE ≠ kwTITLE from by decide,
    show kwLUT3DSIZE ≠ kwLUT1DRANGE from by decide,
    show kwLUT3DSIZE ≠ kwLUT3DRANGE from by decide,
    show kwLUT3DSIZE ≠ kwLUT1DSIZE from by decide]

theorem processTrimmed_data {st : RState} {cs t0 : List Char} {rest : List (List Char)}
    {row : List ℚ} (hne : cs ≠ []) (hhash : ¬ cs.head? = some '#')
    (htok : splitWsAux cs [] = t0 :: rest)
    (h1 : t0 ≠ kwTITLE) (h2 : t0 ≠ kwLUT1DRANGE) (h3 : t0 ≠ kwLUT3DRANGE)
    (h4 : t0 ≠ kwLUT1DSIZE) (h5 : t0 ≠ kwLUT3DSIZE)
    (hmap : mapOptQ (t0 :: rest) = some row) :
    processTrimmed st cs = .ok { st with rows := st.rows ++ [row] } := by
  unfold processTrimmed
  rw [if_neg hne, if_neg hhash]
  simp only [htok]
  simp [h1, h2, h3, h4, h5, hmap]

theorem processLine_blank (st : RState) : processLine st "" = .ok st := rfl

theorem processLine_comment (st : RState) (cm : String) :
    processLine st (commentLine cm) =
      .ok { st with comments := st.comments ++ [String.mk (trimChars cm.data)] } := by
  have hred : processLine st (commentLine cm) =
      processTrimmed st (trimChars ('#' :: ' ' :: cm.data)) := rfl
  have htr : trimChars ('#' :: ' ' :: cm.data) = '#' :: rtrimC (' ' :: cm.data) := by
    rw [trimChars_eq_rl, ltrimC_cons_of_nonws (by decide),
      rtrimC_cons_of_nonws (by decide)]
  rw [hred, htr]
  unfold processTrimmed
  rw [if_neg (by simp), if_pos (by simp)]
  rw [List.tail_cons, trimChars_rtrimC, trimChars_ws_cons _ (by decide)]

theorem processLine_title (st : RState) (nm : String) :
    ∃ ttl, processLine st (titleLine nm) = .ok { st with title := ttl } := by
  have hred : processLine st (titleLine nm) =
      processTrimmed st (trimChars (kwTITLE ++ (' ' :: '"' :: (nm.data ++ ['"'])))) := rfl
  have hZ : ('"' :: (nm.data ++ ['"']) : List Char) ≠ [] := by simp
  have hlast : ∀ c ∈ ('"' :: (nm.data ++ ['"'])).getLast?, c.isWhitespace = false := by
    intro c hc
    rw [getLast?_cons_of_ne_nil '"' (by simp),
      List.getLast?_append_of_ne_nil _ (by simp)] at hc
    simp only [List.getLast?_singleton, Option.mem_def, Option.some_inj] at hc
    subst hc
    decide
  rw [hred, trimChars_kw_line kwTITLE _ (by decide) hlast hZ]
  rw [processTrimmed_title (by simp [kwTITLE])
    (head_ne_hash_of_kw kwTITLE _ (by decide) (by decide))
    (tokens_kw_line kwTITLE _ (by decide))]
  exact ⟨_, rfl⟩

theorem processLine_size1D (st : RState) (n : ℕ) :
    processLine st (size1DLine n) = .ok { st with has2D := true, size2D := n } := by
  have hred : processLine st (size1DLine n) =
      processTrimmed st (trimChars (kwLUT1DSIZE ++ ' ' :: natReprChars n)) := rfl
  have hlast : ∀ c ∈ (natReprChars n).getLast?, c.isWhitespace = false :=
    fun c hc => isDigit_not_ws (natReprChars_isDigit (mem_of_getLastQ hc))
  have hp : parseNatTok (natReprChars n) = some n := by
    unfold parseNatTok
    rw [if_pos ⟨natReprChars_ne_nil n, by
      rw [List.all_eq_true]
      exact fun c hc => natReprChars_isDigit hc⟩]
    rw [foldDigits_natReprChars]
  have htok : splitWsAux (kwLUT1DSIZE ++ ' ' :: natReprChars n) [] =
      kwLUT1DSIZE :: natReprChars n :: [] := by
    rw [tokens_kw_line kwLUT1DSIZE _ (by decide),
      splitWsAux_single [] ⟨natReprChars_ne_nil n,
        fun c hc => isDigit_not_ws (natReprChars_isDigit hc)⟩]
    simp
  rw [hred, trimChars_kw_line kwLUT1DSIZE _ (by decide) hlast (natReprChars_ne_nil n)]
  rw [processTrimmed_size1D (by simp [kwLUT1DSIZE])
    (head_ne_hash_of_kw kwLUT1DSIZE _ (by decide) (by decide)) htok hp]

theorem processLine_size3D (st : RState) (n : ℕ) :
    processLine st (size3DLine n) = .ok { st with has3D := true, size3D := n } := by
  have hred : processLine st (size3DLine n) =
      processTrimmed st (trimChars (kwLUT3DSIZE ++ ' ' :: natReprChars n)) := rfl
  have hlast : ∀ c ∈ (natReprChars n).getLast?, c.isWhitespace = false :=
    fun c hc => isDigit_not_ws (natReprChars_isDigit (mem_of_getLastQ hc))
  have hp : parseNatTok (natReprChars n) = some n := by
    unfold parseNatTok
    rw [if_pos ⟨natReprChars_ne_nil n, by
      rw [List.all_eq_true]
      exact fun c hc => natReprChars_isDigit hc⟩]
    rw [foldDigits_natReprChars]
  have htok : splitWsAux (kwLUT3DSIZE ++ ' ' :: natReprChars n) [] =
      kwLUT3DSIZE :: natReprChars n :: [] := by
    rw [tokens_kw_line kwLUT3DSIZE _ (by decide),
      splitWsAux_single [] ⟨natReprChars_ne_nil n,
        fun c hc => isDigit_not_ws (natReprChars_isDigit hc)⟩]
    simp
  rw [hred, trimChars_kw_line kwLUT3DSIZE _ (by decide) hlast (natReprChars_ne_nil n)]
  rw [processTrimmed_size3D (by simp [kwLUT3DSIZE])
    (head_ne_hash_of_kw kwLUT3DSIZE _ (by decide) (by decide)) htok hp]

theorem fmtChars_ne_kw (d : ℕ) (x : ℚ) (kw : List Char)
    (hkw : ∀ c ∈ kw.head?, c.isDigit = false ∧ c ≠ '-') : fmtChars d x ≠ kw := by
  obtain ⟨c, t, hct, hc⟩ := @fmtChars_head d x
  intro h
  rw [hct] at h
  have hh : c.isDigit = false ∧ c ≠ '-' := hkw c (by rw [← h]; simp)
  rcases hc with hd | hd
  · simp [hd] at hh
  · exact hh.2 hd

theorem range_tail_clean (dec : ℕ) (lo hi : ℚ) :
    ∀ c ∈ (fmtChars dec lo ++ (' ' :: fmtChars dec hi)).getLast?, c.isWhitespace = false := by
  intro c hc
  rw [List.getLast?_append_of_ne_nil _ (by simp),
    getLast?_cons_of_ne_nil ' ' (fmtChars_clean dec hi).1] at hc
  exact isDigit_not_ws (fmtChars_getLast hc)

theorem range_tail_tokens (dec : ℕ) (lo hi : ℚ) :
    splitWsAux (fmtChars dec lo ++ (' ' :: fmtChars dec hi)) [] =
      fmtChars dec lo :: fmtChars dec hi :: [] := by
  rw [@splitWsAux_nonws (fmtChars dec lo) (' ' :: fmtChars dec hi) []
    (fmtChars_clean dec lo).2]
  rw [splitWsAux_ws_cons _ _ (by decide)]
  rw [if_neg (by simp [(fmtChars_clean dec lo).1])]
  rw [splitWsAux_single [] (fmtChars_clean dec hi)]
  simp

theorem mapOptQ_fmt2 (dec : ℕ) (lo hi : ℚ) :
    mapOptQ (fmtChars dec lo :: fmtChars dec hi :: []) =
      some [rnd dec lo, rnd dec hi] := by
  simp [mapOptQ, parseDecCore_fmtChars]

theorem processLine_range1D (st : RState) (dec : ℕ) (lo hi : ℚ) :
    processLine st (range1DLine dec lo hi) =
      .ok { st with dom2D := [(rnd dec lo, rnd dec lo, rnd dec lo),
                              (rnd dec hi, rnd dec hi, rnd dec hi)] } := by
  have hred : processLine st (range1DLine dec lo hi) =
      processTrimmed st (trimChars (kwLUT1DRANGE ++
        (' ' :: (fmtChars dec lo ++ (' ' :: fmtChars dec hi))))) := rfl
  rw [hred, trimChars_kw_line kwLUT1DRANGE _ (by decide) (range_tail_clean dec lo hi)
    (by simp)]
  rw [processTrimmed_range1D (by simp [kwLUT1DRANGE])
    (head_ne_hash_of_kw kwLUT1DRANGE _ (by decide) (by decide))
    (by rw [tokens_kw_line kwLUT1DRANGE _ (by decide), range_tail_tokens])
    (mapOptQ_fmt2 dec lo hi)]
  rfl

theorem processLine_range3D (st : RState) (dec : ℕ) (lo hi : ℚ) :
    processLine st (range3DLine dec lo hi) =
      .ok { st with dom3D := [(rnd dec lo, rnd dec lo, rnd dec lo),
                              (rnd dec hi, rnd dec hi, rnd dec hi)] } := by
  have hred : processLine st (range3DLine dec lo hi) =
      processTrimmed st (trimChars (kwLUT3DRANGE ++
        (' ' :: (fmtChars dec lo ++ (' ' :: fmtChars dec hi))))) := rfl
  rw [hred, trimChars_kw_line kwLUT3DRANGE _ (by decide) (range_tail_clean dec lo hi)
    (by simp)]
  rw [processTrimmed_range3D (by simp [kwLUT3DRANGE])
    (head_ne_hash_of_kw kwLUT3DRANGE _ (by decide) (by decide))
    (by rw [tokens_kw_line kwLUT3DRANGE _ (by decide), range_tail_tokens])
    (mapOptQ_fmt2 dec lo hi)]
  rfl

theorem dataV3_tokens (dec : ℕ) (v : V3) :
    splitWsAux (fmtChars dec v.1 ++
      (' ' :: (fmtChars dec v.2.1 ++ (' ' :: fmtChars dec v.2.2)))) [] =
      fmtChars dec v.1 :: fmtChars dec v.2.1 :: fmtChars dec v.2.2 :: [] := by
  rw [@splitWsAux_nonws (fmtChars dec v.1) _ [] (fmtChars_clean dec v.1).2]
  rw [splitWsAux_ws_cons _ _ (by decide)]
  rw [if_neg (by simp [(fmtChars_clean dec v.1).1])]
  rw [range_tail_tokens]
  simp

theorem processLine_dataV3 (st : RState) (dec : ℕ) (v : V3) :
    processLine st (fmtV3 dec v) =
      .ok { st with rows := st.rows ++ [[rnd dec v.1, rnd dec v.2.1, rnd dec v.2.2]] } := by
  obtain ⟨c, t, hct, hc⟩ := @fmtChars_head dec v.1
  have hred : processLine st (fmtV3 dec v) =
      processTrimmed st (trimChars (fmtChars dec v.1 ++
        (' ' :: (fmtChars dec v.2.1 ++ (' ' :: fmtChars dec v.2.2))))) := rfl
  have htr : trimChars (fmtChars dec v.1 ++
      (' ' :: (fmtChars dec v.2.1 ++ (' ' :: fmtChars dec v.2.2)))) =
      fmtChars dec v.1 ++ (' ' :: (fmtChars dec v.2.1 ++ (' ' :: fmtChars dec v.2.2))) := by
    apply trimChars_eq_self
    · intro c2 hc2
      rw [hct, List.cons_append, List.head?_cons, Option.mem_def, Option.some_inj] at hc2
      subst hc2
      rcases hc with hd | hd
      · exact isDigit_not_ws hd
      · rw [hd]; decide
    · intro c2 hc2
      rw [List.getLast?_append_of_ne_nil _ (by simp),
        getLast?_cons_of_ne_nil ' ' (by simp [(fmtChars_clean dec v.2.2).1]),
        List.getLast?_append_of_ne_nil _ (by simp),
        getLast?_cons_of_ne_nil ' ' (fmtChars_clean dec v.2.2).1] at hc2
      exact isDigit_not_ws (fmtChars_getLast hc2)
  have hhash : ¬ (fmtChars dec v.1 ++
      (' ' :: (fmtChars dec v.2.1 ++ (' ' :: fmtChars dec v.2.2)))).head? = some '#' := by
    rw [hct, List.cons_append, List.head?_cons]
    intro h
    have hch := Option.some_inj.1 h
    rcases hc with hd | hd
    · exact isDigit_ne hd (by decide) hch
    · rw [hch] at hd
      exact absurd hd (by decide)
  have hmap : mapOptQ (fmtChars dec v.1 :: fmtChars dec v.2.1 :: fmtChars dec v.2.2 :: []) =
      some [rnd dec v.1, rnd dec v.2.1, rnd dec v.2.2] := by
    simp [mapOptQ, parseDecCore_fmtChars]
  have hkwhyp : ∀ kw : List Char, (∀ c2 ∈ kw.head?, c2.isDigit = false ∧ c2 ≠ '-') →
      fmtChars dec v.1 ≠ kw := fun kw hkw => fmtChars_ne_kw dec v.1 kw hkw
  rw [hred, htr]
  rw [processTrimmed_data (by rw [hct]; simp) hhash (dataV3_tokens dec v)
    (hkwhyp _ (by decide)) (hkwhyp _ (by decide)) (hkwhyp _ (by decide))
    (hkwhyp _ (by decide)) (hkwhyp _ (by decide)) hmap]

theorem processLines_append (st : RState) (xs ys : List String) :
    processLines st (xs ++ ys) =
      match processLines st xs with
      | .ok st2 => processLines st2 ys
      | .error e => .error e := by
  induction xs generalizing st with
  | nil => simp [processLines]
  | cons l ls ih =>
    rw [List.cons_append]
    show (match processLine st l with
          | .ok st2 => processLines st2 (ls ++ ys)
          | .error e => .error e) =
        match (match processLine st l with
               | .ok st2 => processLines st2 ls
               | .error e => .error e) with
        | .ok st2 => processLines st2 ys
        | .error e => .error e
    cases processLine st l with
    | ok st2 => exact ih st2
    | error e => rfl

theorem processLines_comments (st : RState) (cms : List String) :
    processLines st (cms.map commentLine) =
      .ok { st with comments :=
        st.comments ++ cms.map fun cm => String.mk (trimChars cm.data) } := by
  induction cms generalizing st with
  | nil => simp [processLines]
  | cons cm cms ih =>
    rw [List.map_cons]
    unfold processLines
    simp only [processLine_comment]
    rw [ih]
    simp

theorem processLines_dataV3 (st : RState) (dec : ℕ) (vs : List V3) :
    processLines st (vs.map (fmtV3 dec)) =
      .ok { st with rows :=
        st.rows ++ vs.map fun v => [rnd dec v.1, rnd dec v.2.1, rnd dec v.2.2] } := by
  induction vs generalizing st with
  | nil => simp [processLines]
  | cons v vs ih =>
    rw [List.map_cons]
    unfold processLines
    simp only [processLine_dataV3]
    rw [ih]
    simp

/-! ### Lemmas: writer structure and classification -/

theorem rangeBlock1D_default (dec : ℕ) : rangeBlock1D dec defaultDomain = .ok [] := by
  simp [rangeBlock1D]

theorem rangeBlock3D_default (dec : ℕ) : rangeBlock3D dec defaultDomain = .ok [] := by
  simp [rangeBlock3D]

theorem rangeBlock1D_cons {dom : Domain} {d0 d1 : V3} {rest : Domain} (dec : ℕ)
    (h : dom = d0 :: d1 :: rest) (hne : dom ≠ defaultDomain) :
    rangeBlock1D dec dom = .ok [range1DLine dec d0.1 d1.1] := by
  unfold rangeBlock1D
  rw [if_neg hne]
  rw [h]

theorem rangeBlock3D_cons {dom : Domain} {d0 d1 : V3} {rest : Domain} (dec : ℕ)
    (h : dom = d0 :: d1 :: rest) (hne : dom ≠ defaultDomain) :
    rangeBlock3D dec dom = .ok [range3DLine dec d0.1 d1.1] := by
  unfold rangeBlock3D
  rw [if_neg hne]
  rw [h]

theorem mapExcRows_ok {dec : ℕ} {tbl : List (List ℚ)}
    (hw : ∀ row ∈ tbl, row.length = 3) :
    mapExcRows dec tbl =
      .ok (tbl.map fun row => fmtV3 dec (row.getD 0 0, row.getD 1 0, row.getD 2 0)) := by
  induction tbl with
  | nil => rfl
  | cons row rest ih =>
    obtain ⟨a, b, c, hrow⟩ : ∃ a b c, row = [a, b, c] := by
      have hl : row.length = 3 := hw row (by simp)
      match row, hl with
      | [a, b, c], _ => exact ⟨a, b, c, rfl⟩
    subst hrow
    unfold mapExcRows
    rw [show formatRow dec [a, b, c] = .ok (fmtV3 dec (a, b, c)) from rfl]
    rw [ih fun r hr => hw r (by simp [hr])]
    rfl

theorem classify_2D {st : RState} (h2 : st.has2D = true) (h3 : st.has3D = false) :
    classify st =
      .ok (some (.shaper2D ⟨st.title, st.dom2D, st.rows, st.comments⟩)) := by
  simp [classify, h2, h3]

theorem classify_3D {st : RState} (h2 : st.has2D = false) (h3 : st.has3D = true)
    {cube : Cube} (hres : reshapeF st.size3D st.rows = some cube) :
    classify st =
      .ok (some (.cube3D ⟨st.title, st.dom3D, cube, st.comments⟩)) := by
  simp [classify, h2, h3, hres]

theorem classify_seq {st : RState} (h2 : st.has2D = true) (h3 : st.has3D = true)
    {cube : Cube} (hres : reshapeF st.size3D (st.rows.drop st.size2D) = some cube) :
    classify st =
      .ok (some (.seqLUT
        ⟨st.title ++ " - Shaper", st.dom2D, st.rows.take st.size2D, []⟩
        ⟨st.title ++ " - Cube", st.dom3D, cube, st.comments⟩)) := by
  simp [classify, h2, h3, hres]

theorem classify_none {st : RState} (h2 : st.has2D = false) (h3 : st.has3D = false) :
    classify st = .ok none := by
  simp [classify, h2, h3]

theorem readLUT_eq {stem : String} {lines : List String} {st : RState}
    (h : processLines (initState stem) lines = .ok st) :
    readLUT stem lines = classify st := by
  unfold readLUT
  simp only [h]

theorem writeCore_2D {sh : LUT2D} {cu : LUT3D} {nm : String} {dec : ℕ}
    (hdom : uniqueCount sh.domain = 2 ∧ uniqueCount cu.domain = 2)
    (hsz : 2 ≤ sh.size ∧ sh.size ≤ 65536)
    {rb : List String} (hrb : rangeBlock1D dec sh.domain = .ok rb)
    {rs : List String} (hrs : mapExcRows dec sh.table = .ok rs) :
    writeCore sh cu true false nm dec =
      .ok ([titleLine nm] ++ sh.comments.map commentLine ++ cu.comments.map commentLine ++
        (size1DLine sh.table.length :: rb) ++ (rs ++ [""])) := by
  unfold writeCore
  rw [if_neg (not_not_intro hdom)]
  rw [if_neg (by simp [hsz.1, hsz.2])]
  rw [if_neg (by simp)]
  simp [bind, Except.bind, pure, Except.pure, hrb, hrs]

theorem writeCore_3D {sh : LUT2D} {cu : LUT3D} {nm : String} {dec : ℕ}
    (hdom : uniqueCount sh.domain = 2 ∧ uniqueCount cu.domain = 2)
    (hsz : 2 ≤ cu.size ∧ cu.size ≤ 256)
    {rb : List String} (hrb : rangeBlock3D dec cu.domain = .ok rb) :
    writeCore sh cu false true nm dec =
      .ok ([titleLine nm] ++ sh.comments.map commentLine ++ cu.comments.map commentLine ++
        (size3DLine cu.table.length :: rb) ++ (flattenF cu.table).map (fmtV3 dec)) := by
  unfold writeCore
  rw [if_neg (not_not_intro hdom)]
  rw [if_neg (by simp)]
  rw [if_neg (by simp [hsz.1, hsz.2])]
  simp [bind, Except.bind, pure, Except.pure, hrb]

theorem writeCore_seq {sh : LUT2D} {cu : LUT3D} {nm : String} {dec : ℕ}
    (hdom : uniqueCount sh.domain = 2 ∧ uniqueCount cu.domain = 2)
    (hsz2 : 2 ≤ sh.size ∧ sh.size ≤ 65536) (hsz3 : 2 ≤ cu.size ∧ cu.size ≤ 256)
    {rb1 : List String} (hrb1 : rangeBlock1D dec sh.domain = .ok rb1)
    {rb3 : List String} (hrb3 : rangeBlock3D dec cu.domain = .ok rb3)
    {rs : List String} (hrs : mapExcRows dec sh.table = .ok rs) :
    writeCore sh cu true true nm dec =
      .ok ([titleLine nm] ++ sh.comments.map commentLine ++ cu.comments.map commentLine ++
        (size1DLine sh.table.length :: rb1) ++ (size3DLine cu.table.length :: rb3) ++
        (rs ++ [""]) ++ (flattenF cu.table).map (fmtV3 dec)) := by
  unfold writeCore
  rw [if_neg (not_not_intro hdom)]
  rw [if_neg (by simp [hsz2.1, hsz2.2])]
  rw [if_neg (by simp [hsz3.1, hsz3.2])]
  simp [bind, Except.bind, pure, Except.pure, hrb1, hrb3, hrs]

/-! ### Lemmas: which written lines carry a range directive -/

theorem pfx_getElem {kw r l : List Char} (h : l = kw ++ r) {i : ℕ} (hi : i < kw.length) :
    l[i]? = kw[i]? := by
  subst h
  rw [List.getElem?_append, if_pos hi]

theorem not_s1r_title (nm : String) : ¬ Starts1DRange (titleLine nm) := by
  rintro ⟨r, hr⟩
  have h1 := pfx_getElem hr (show 0 < kwLUT1DRANGE.length from by decide)
  have h2 : (titleLine nm).data[0]? = some 'T' :=
    pfx_getElem (show (titleLine nm).data = kwTITLE ++ _ from rfl)
      (show 0 < kwTITLE.length from by decide)
  rw [h2] at h1
  exact absurd h1 (by decide)

theorem not_s3r_title (nm : String) : ¬ Starts3DRange (titleLine nm) := by
  rintro ⟨r, hr⟩
  have h1 := pfx_getElem hr (show 0 < kwLUT3DRANGE.length from by decide)
  have h2 : (titleLine nm).data[0]? = some 'T' :=
    pfx_getElem (show (titleLine nm).data = kwTITLE ++ _ from rfl)
      (show 0 < kwTITLE.length from by decide)
  rw [h2] at h1
  exact absurd h1 (by decide)

theorem not_s1r_comment (cm : String) : ¬ Starts1DRange (commentLine cm) := by
  rintro ⟨r, hr⟩
  have h1 := pfx_getElem hr (show 0 < kwLUT1DRANGE.length from by decide)
  have h2 : (commentLine cm).data[0]? = some '#' := rfl
  rw [h2] at h1
  exact absurd h1 (by decide)

theorem not_s3r_comment (cm : String) : ¬ Starts3DRange (commentLine cm) := by
  rintro ⟨r, hr⟩
  have h1 := pfx_getElem hr (show 0 < kwLUT3DRANGE.length from by decide)
  have h2 : (commentLine cm).data[0]? = some '#' := rfl
  rw [h2] at h1
  exact absurd h1 (by decide)

theorem not_s1r_size1D (n : ℕ) : ¬ Starts1DRange (size1DLine n) := by
  rintro ⟨r, hr⟩
  have h1 := pfx_getElem hr (show 7 < kwLUT1DRANGE.length from by decide)
  have h2 : (size1DLine n).data[7]? = some 'S' :=
    pfx_getElem (show (size1DLine n).data = kwLUT1DSIZE ++ _ from rfl)
      (show 7 < kwLUT1DSIZE.length from by decide)
  rw [h2] at h1
  exact absurd h1 (by decide)

theorem not_s3r_size1D (n : ℕ) : ¬ Starts3DRange (size1DLine n) := by
  rintro ⟨r, hr⟩
  have h1 := pfx_getElem hr (show 4 < kwLUT3DRANGE.length from by decide)
  have h2 : (size1DLine n).data[4]? = some '1' :=
    pfx_getElem (show (size1DLine n).data = kwLUT1DSIZE ++ _ from rfl)
      (show 4 < kwLUT1DSIZE.length from by decide)
  rw [h2] at h1
  exact absurd h1 (by decide)

theorem not_s1r_size3D (n : ℕ) : ¬ Starts1DRange (size3DLine n) := by
  rintro ⟨r, hr⟩
  have h1 := pfx_getElem hr (show 4 < kwLUT1DRANGE.length from by decide)
  have h2 : (size3DLine n).data[4]? = some '3' :=
    pfx_getElem (show (size3DLine n).data = kwLUT3DSIZE ++ _ from rfl)
      (show 4 < kwLUT3DSIZE.length from by decide)
  rw [h2] at h1
  exact absurd h1 (by decide)

theorem not_s3r_size3D (n : ℕ) : ¬ Starts3DRange (size3DLine n) := by
  rintro ⟨r, hr⟩
  have h1 := pfx_getElem hr (show 7 < kwLUT3DRANGE.length from by decide)
  have h2 : (size3DLine n).data[7]? = some 'S' :=
    pfx_getElem (show (size3DLine n).data = kwLUT3DSIZE ++ _ from rfl)
      (show 7 < kwLUT3DSIZE.length from by decide)
  rw [h2] at h1
  exact absurd h1 (by decide)

theorem not_s1r_range3D (dec : ℕ) (lo hi : ℚ) :
    ¬ Starts1DRange (range3DLine dec lo hi) := by
  rintro ⟨r, hr⟩
  have h1 := pfx_getElem hr (show 4 < kwLUT1DRANGE.length from by decide)
  have h2 : (range3DLine dec lo hi).data[4]? = some '3' :=
    pfx_getElem (show (range3DLine dec lo hi).data = kwLUT3DRANGE ++ _ from rfl)
      (show 4 < kwLUT3DRANGE.length from by decide)
  rw [h2] at h1
  exact absurd h1 (by decide)

theorem not_s3r_range1D (dec : ℕ) (lo hi : ℚ) :
    ¬ Starts3DRange (range1DLine dec lo hi) := by
  rintro ⟨r, hr⟩
  have h1 := pfx_getElem hr (show 4 < kwLUT3DRANGE.length from by decide)
  have h2 : (range1DLine dec lo hi).data[4]? = some '1' :=
    pfx_getElem (show (range1DLine dec lo hi).data = kwLUT1DRANGE ++ _ from rfl)
      (show 4 < kwLUT1DRANGE.length from by decide)
  rw [h2] at h1
  exact absurd h1 (by decide)

theorem not_s1r_data (dec : ℕ) (v : V3) : ¬ Starts1DRange (fmtV3 dec v) := by
  rintro ⟨r, hr⟩
  obtain ⟨c, t, hct, hc⟩ := @fmtChars_head dec v.1
  have h1 := pfx_getElem hr (show 0 < kwLUT1DRANGE.length from by decide)
  have h2 : (fmtV3 dec v).data[0]? = some c := by
    show (fmtChars dec v.1 ++ _)[0]? = some c
    rw [hct]
    simp
  rw [h2] at h1
  have hcL : c = 'L' := by
    have := h1
    simp only [show kwLUT1DRANGE[0]? = some 'L' from rfl, Option.some_inj] at this
    exact this
  rcases hc with hd | hd
  · rw [hcL] at hd
    exact absurd hd (by decide)
  · rw [hcL] at hd
    exact absurd hd (by decide)

theorem not_s3r_data (dec : ℕ) (v : V3) : ¬ Starts3DRange (fmtV3 dec v) := by
  rintro ⟨r, hr⟩
  obtain ⟨c, t, hct, hc⟩ := @fmtChars_head dec v.1
  have h1 := pfx_getElem hr (show 0 < kwLUT3DRANGE.length from by decide)
  have h2 : (fmtV3 dec v).data[0]? = some c := by
    show (fmtChars dec v.1 ++ _)[0]? = some c
    rw [hct]
    simp
  rw [h2] at h1
  have hcL : c = 'L' := by
    have := h1
    simp only [show kwLUT3DRANGE[0]? = some 'L' from rfl, Option.some_inj] at this
    exact this
  rcases hc with hd | hd
  · rw [hcL] at hd
    exact absurd hd (by decide)
  · rw [hcL] at hd
    exact absurd hd (by decide)

theorem not_s1r_blank : ¬ Starts1DRange "" := by
  rintro ⟨r, hr⟩
  have h := congrArg List.length hr
  simp at h
  omega

theorem not_s3r_blank : ¬ Starts3DRange "" := by
  rintro ⟨r, hr⟩
  have h := congrArg List.length hr
  simp at h
  omega

theorem s1r_range1D (dec : ℕ) (lo hi : ℚ) : Starts1DRange (range1DLine dec lo hi) :=
  ⟨_, rfl⟩

theorem s3r_range3D (dec : ℕ) (lo hi : ℚ) : Starts3DRange (range3DLine dec lo hi) :=
  ⟨_, rfl⟩

theorem dropWhile_eq_nil_of_all {p : Char → Bool} {L : List Char}
    (h : ∀ c ∈ L, p c = true) : L.dropWhile p = [] := by
  induction L with
  | nil => rfl
  | cons c t ih =>
    rw [List.dropWhile_cons, if_pos (h c (by simp))]
    exact ih fun c2 hc2 => h c2 (by simp [hc2])

theorem fmt_sign_int_not_dot {s : ℤ} {n : ℕ} {c : Char}
    (hc : c ∈ (if s < 0 then ['-'] else []) ++ natReprChars n) : c ≠ '.' := by
  rw [List.mem_append] at hc
  rcases hc with hc | hc
  · by_cases hneg : s < 0
    · rw [if_pos hneg] at hc
      simp at hc
      subst hc
      decide
    · rw [if_neg hneg] at hc
      simp at hc
  · exact isDigit_ne (natReprChars_isDigit hc) (by decide)

theorem fracLen_fmtFixed (dec : ℕ) (x : ℚ) : fracLen (fmtFixed dec x) = dec := by
  unfold fracLen fmtFixed fmtChars
  by_cases hd : dec = 0
  · subst hd
    rw [if_pos rfl, List.append_nil]
    rw [dropWhile_eq_nil_of_all (by
      intro c hc
      simp only [ne_eq, decide_eq_true_eq]
      exact fmt_sign_int_not_dot hc)]
    rfl
  · rw [if_neg hd]
    rw [dropWhile_append_of_all (by
      intro c hc
      simp only [ne_eq, decide_eq_true_eq]
      exact fmt_sign_int_not_dot hc)]
    rw [List.dropWhile_cons, if_neg (by simp)]
    rw [List.tail_cons]
    exact fracChars_length (by omega) (Nat.mod_lt _ (by positivity))

theorem writeCore_seq_inv {sh : LUT2D} {cu : LUT3D} {nm : String} {dec : ℕ}
    {lines : List String} (h : writeCore sh cu true true nm dec = .ok lines) :
    ∃ rb1 rb3 rs, rangeBlock1D dec sh.domain = .ok rb1 ∧
      rangeBlock3D dec cu.domain = .ok rb3 ∧ mapExcRows dec sh.table = .ok rs ∧
      lines = [titleLine nm] ++ sh.comments.map commentLine ++
        cu.comments.map commentLine ++ (size1DLine sh.table.length :: rb1) ++
        (size3DLine cu.table.length :: rb3) ++ (rs ++ [""]) ++
        (flattenF cu.table).map (fmtV3 dec) := by
  unfold writeCore at h
  split at h
  · cases h
  split at h
  · cases h
  split at h
  · cases h
  simp only [bind, Except.bind, pure, Except.pure, if_true] at h
  cases hrb1 : rangeBlock1D dec sh.domain with
  | error e =>
    simp only [hrb1] at h
    cases h
  | ok rb1 =>
    simp only [hrb1] at h
    cases hrb3 : rangeBlock3D dec cu.domain with
    | error e =>
      simp only [hrb3] at h
      cases h
    | ok rb3 =>
      simp only [hrb3] at h
      cases hrs : mapExcRows dec sh.table with
      | error e =>
        simp only [hrs] at h
        cases h
      | ok rs =>
        simp only [hrs] at h
        refine ⟨rb1, rb3, rs, rfl, rfl, rfl, ?_⟩
        injection h with h2
        rw [← h2]

theorem writeCore_2D_inv {sh : LUT2D} {cu : LUT3D} {nm : String} {dec : ℕ}
    {lines : List String} (h : writeCore sh cu true false nm dec = .ok lines) :
    ∃ rb1 rs, rangeBlock1D dec sh.domain = .ok rb1 ∧
      mapExcRows dec sh.table = .ok rs ∧
      lines = [titleLine nm] ++ sh.comments.map commentLine ++
        cu.comments.map commentLine ++ (size1DLine sh.table.length :: rb1) ++
        (rs ++ [""]) := by
  unfold writeCore at h
  split at h
  · cases h
  split at h
  · cases h
  split at h
  · cases h
  simp only [bind, Except.bind, pure, Except.pure, if_true, Bool.false_eq_true,
    if_false] at h
  cases hrb1 : rangeBlock1D dec sh.domain with
  | error e =>
    simp only [hrb1] at h
    cases h
  | ok rb1 =>
    simp only [hrb1] at h
    cases hrs : mapExcRows dec sh.table with
    | error e =>
      simp only [hrs] at h
      cases h
    | ok rs =>
      simp only [hrs] at h
      refine ⟨rb1, rs, rfl, rfl, ?_⟩
      injection h with h2
      rw [← h2]
      simp

theorem writeCore_3D_inv {sh : LUT2D} {cu : LUT3D} {nm : String} {dec : ℕ}
    {lines : List String} (h : writeCore sh cu false true nm dec = .ok lines) :
    ∃ rb3, rangeBlock3D dec cu.domain = .ok rb3 ∧
      lines = [titleLine nm] ++ sh.comments.map commentLine ++
        cu.comments.map commentLine ++ (size3DLine cu.table.length :: rb3) ++
        (flattenF cu.table).map (fmtV3 dec) := by
  unfold writeCore at h
  split at h
  · cases h
  split at h
  · cases h
  split at h
  · cases h
  simp only [bind, Except.bind, pure, Except.pure, if_true, Bool.false_eq_true,
    if_false] at h
  cases hrb3 : rangeBlock3D dec cu.domain with
  | error e =>
    simp only [hrb3] at h
    cases h
  | ok rb3 =>
    simp only [hrb3] at h
    refine ⟨rb3, rfl, ?_⟩
    injection h with h2
    rw [← h2]
    simp

theorem writeCore_ff_inv {sh : LUT2D} {cu : LUT3D} {nm : String} {dec : ℕ}
    {lines : List String} (h : writeCore sh cu false false nm dec = .ok lines) :
    lines = [titleLine nm] ++ sh.comments.map commentLine ++
      cu.comments.map commentLine := by
  unfold writeCore at h
  split at h
  · cases h
  split at h
  · cases h
  split at h
  · cases h
  simp only [bind, Except.bind, pure, Except.pure, Bool.false_eq_true, if_false] at h
  injection h with h2
  rw [← h2]
  simp

theorem rangeBlock1D_inv {dec : ℕ} {dom : Domain} {rb : List String}
    (h : rangeBlock1D dec dom = .ok rb) :
    (dom = defaultDomain ∧ rb = []) ∨
    (dom ≠ defaultDomain ∧ ∃ d0 d1 drest, dom = d0 :: d1 :: drest ∧
      rb = [range1DLine dec d0.1 d1.1]) := by
  unfold rangeBlock1D at h
  by_cases hdd : dom = defaultDomain
  · rw [if_pos hdd] at h
    injection h with h2
    exact Or.inl ⟨hdd, h2.symm⟩
  · rw [if_neg hdd] at h
    match dom, h with
    | d0 :: d1 :: drest, h =>
      injection h with h2
      exact Or.inr ⟨hdd, d0, d1, drest, rfl, h2.symm⟩

theorem rangeBlock3D_inv {dec : ℕ} {dom : Domain} {rb : List String}
    (h : rangeBlock3D dec dom = .ok rb) :
    (dom = defaultDomain ∧ rb = []) ∨
    (dom ≠ defaultDomain ∧ ∃ d0 d1 drest, dom = d0 :: d1 :: drest ∧
      rb = [range3DLine dec d0.1 d1.1]) := by
  unfold rangeBlock3D at h
  by_cases hdd : dom = defaultDomain
  · rw [if_pos hdd] at h
    injection h with h2
    exact Or.inl ⟨hdd, h2.symm⟩
  · rw [if_neg hdd] at h
    match dom, h with
    | d0 :: d1 :: drest, h =>
      injection h with h2
      exact Or.inr ⟨hdd, d0, d1, drest, rfl, h2.symm⟩

theorem formatRow_inv {dec : ℕ} {row : List ℚ} {s : String}
    (h : formatRow dec row = .ok s) : ∃ v : V3, s = fmtV3 dec v := by
  match row, h with
  | a :: b :: c :: rest, h =>
    injection h with h2
    exact ⟨(a, b, c), h2.symm⟩

theorem mapExcRows_mem {dec : ℕ} {tbl : List (List ℚ)} {rs : List String}
    (h : mapExcRows dec tbl = .ok rs) {l : String} (hl : l ∈ rs) :
    ∃ v : V3, l = fmtV3 dec v := by
  induction tbl generalizing rs with
  | nil =>
    injection h with h2
    rw [← h2] at hl
    cases hl
  | cons row rest ih =>
    unfold mapExcRows at h
    cases hfr : formatRow dec row with
    | error e =>
      simp only [hfr] at h
      cases h
    | ok s =>
      simp only [hfr] at h
      cases hmr : mapExcRows dec rest with
      | error e =>
        simp only [hmr] at h
        cases h
      | ok ss =>
        simp only [hmr] at h
        injection h with h2
        rw [← h2] at hl
        rcases List.mem_cons.1 hl with hl | hl
        · subst hl
          exact formatRow_inv hfr
        · exact ih hmr hl

theorem no_s1r_comments {cms : List String} {l : String}
    (h : l ∈ cms.map commentLine) : ¬ Starts1DRange l := by
  obtain ⟨cm, _, hcm⟩ := List.mem_map.1 h
  rw [← hcm]
  exact not_s1r_comment cm

theorem no_s3r_comments {cms : List String} {l : String}
    (h : l ∈ cms.map commentLine) : ¬ Starts3DRange l := by
  obtain ⟨cm, _, hcm⟩ := List.mem_map.1 h
  rw [← hcm]
  exact not_s3r_comment cm

theorem no_s1r_rows {dec : ℕ} {tbl : List (List ℚ)} {rs : List String}
    (h : mapExcRows dec tbl = .ok rs) {l : String} (hl : l ∈ rs) :
    ¬ Starts1DRange l := by
  obtain ⟨v, hv⟩ := mapExcRows_mem h hl
  rw [hv]
  exact not_s1r_data dec v

theorem no_s3r_rows {dec : ℕ} {tbl : List (List ℚ)} {rs : List String}
    (h : mapExcRows dec tbl = .ok rs) {l : String} (hl : l ∈ rs) :
    ¬ Starts3DRange l := by
  obtain ⟨v, hv⟩ := mapExcRows_mem h hl
  rw [hv]
  exact not_s3r_data dec v

theorem no_s1r_flat {dec : ℕ} {t : Cube} {l : String}
    (h : l ∈ (flattenF t).map (fmtV3 dec)) : ¬ Starts1DRange l := by
  obtain ⟨v, _, hv⟩ := List.mem_map.1 h
  rw [← hv]
  exact not_s1r_data dec v

theorem no_s3r_flat {dec : ℕ} {t : Cube} {l : String}
    (h : l ∈ (flattenF t).map (fmtV3 dec)) : ¬ Starts3DRange l := by
  obtain ⟨v, _, hv⟩ := List.mem_map.1 h
  rw [← hv]
  exact not_s3r_data dec v

theorem s1r_rb1_mem {dec : ℕ} {dom : Domain} {rb : List String}
    (hrb : rangeBlock1D dec dom = .ok rb) {l : String} (hl : l ∈ rb) :
    dom ≠ defaultDomain ∧
      ∃ d0 d1 drest, dom = d0 :: d1 :: drest ∧ l = range1DLine dec d0.1 d1.1 := by
  rcases rangeBlock1D_inv hrb with ⟨_, hnil⟩ | ⟨hne, d0, d1, drest, hdom, hone⟩
  · rw [hnil] at hl
    cases hl
  · rw [hone] at hl
    rcases List.mem_singleton.1 hl with rfl
    exact ⟨hne, d0, d1, drest, hdom, rfl⟩

theorem s3r_rb3_mem {dec : ℕ} {dom : Domain} {rb : List String}
    (hrb : rangeBlock3D dec dom = .ok rb) {l : String} (hl : l ∈ rb) :
    dom ≠ defaultDomain ∧
      ∃ d0 d1 drest, dom = d0 :: d1 :: drest ∧ l = range3DLine dec d0.1 d1.1 := by
  rcases rangeBlock3D_inv hrb with ⟨_, hnil⟩ | ⟨hne, d0, d1, drest, hdom, hone⟩
  · rw [hnil] at hl
    cases hl
  · rw [hone] at hl
    rcases List.mem_singleton.1 hl with rfl
    exact ⟨hne, d0, d1, drest, hdom, rfl⟩

theorem no_s3r_rb1 {dec : ℕ} {dom : Domain} {rb : List String}
    (hrb : rangeBlock1D dec dom = .ok rb) {l : String} (hl : l ∈ rb) :
    ¬ Starts3DRange l := by
  obtain ⟨_, d0, d1, drest, _, hline⟩ := s1r_rb1_mem hrb hl
  rw [hline]
  exact not_s3r_range1D dec d0.1 d1.1

theorem no_s1r_rb3 {dec : ℕ} {dom : Domain} {rb : List String}
    (hrb : rangeBlock3D dec dom = .ok rb) {l : String} (hl : l ∈ rb) :
    ¬ Starts1DRange l := by
  obtain ⟨_, d0, d1, drest, _, hline⟩ := s3r_rb3_mem hrb hl
  rw [hline]
  exact not_s1r_range3D dec d0.1 d1.1

theorem writeCore_range_emission {sh : LUT2D} {cu : LUT3D} {nm : String} {dec : ℕ}
    {h2 h3 : Bool} {lines : List String}
    (h : writeCore sh cu h2 h3 nm dec = .ok lines) :
    ((∃ l ∈ lines, Starts1DRange l) ↔ (h2 = true ∧ sh.domain ≠ defaultDomain)) ∧
    (∀ l ∈ lines, Starts1DRange l → ∃ d0 d1 drest,
        sh.domain = d0 :: d1 :: drest ∧ l = range1DLine dec d0.1 d1.1) ∧
    ((∃ l ∈ lines, Starts3DRange l) ↔ (h3 = true ∧ cu.domain ≠ defaultDomain)) ∧
    (∀ l ∈ lines, Starts3DRange l → ∃ d0 d1 drest,
        cu.domain = d0 :: d1 :: drest ∧ l = range3DLine dec d0.1 d1.1) := by
  cases h2 <;> cases h3
  · -- no stage written
    have hsh := writeCore_ff_inv h
    subst hsh
    have key1 : ∀ l, l ∈ [titleLine nm] ++ sh.comments.map commentLine ++
        cu.comments.map commentLine → Starts1DRange l → False := by
      intro l hl hs
      simp only [List.mem_append, List.mem_cons, List.not_mem_nil, or_false] at hl
      rcases hl with (rfl | hA) | hB
      · exact not_s1r_title nm hs
      · exact no_s1r_comments hA hs
      · exact no_s1r_comments hB hs
    have key3 : ∀ l, l ∈ [titleLine nm] ++ sh.comments.map commentLine ++
        cu.comments.map commentLine → Starts3DRange l → False := by
      intro l hl hs
      simp only [List.mem_append, List.mem_cons, List.not_mem_nil, or_false] at hl
      rcases hl with (rfl | hA) | hB
      · exact not_s3r_title nm hs
      · exact no_s3r_comments hA hs
      · exact no_s3r_comments hB hs
    refine ⟨⟨?_, ?_⟩, ?_, ⟨?_, ?_⟩, ?_⟩
    · rintro ⟨l, hl, hs⟩
      exact (key1 l hl hs).elim
    · rintro ⟨hf, -⟩
      exact absurd hf (by decide)
    · intro l hl hs
      exact (key1 l hl hs).elim
    · rintro ⟨l, hl, hs⟩
      exact (key3 l hl hs).elim
    · rintro ⟨hf, -⟩
      exact absurd hf (by decide)
    · intro l hl hs
      exact (key3 l hl hs).elim
  · -- cube only
    obtain ⟨rb3, hrb3, hsh⟩ := writeCore_3D_inv h
    subst hsh
    have key1 : ∀ l, l ∈ [titleLine nm] ++ sh.comments.map commentLine ++
        cu.comments.map commentLine ++ (size3DLine cu.table.length :: rb3) ++
        (flattenF cu.table).map (fmtV3 dec) → Starts1DRange l → False := by
      intro l hl hs
      simp only [List.mem_append, List.mem_cons, List.not_mem_nil, or_false] at hl
      rcases hl with (((rfl | hA) | hB) | (rfl | hrb)) | hE
      · exact not_s1r_title nm hs
      · exact no_s1r_comments hA hs
      · exact no_s1r_comments hB hs
      · exact not_s1r_size3D _ hs
      · exact no_s1r_rb3 hrb3 hrb hs
      · exact no_s1r_flat hE hs
    have key3 : ∀ l, l ∈ [titleLine nm] ++ sh.comments.map commentLine ++
        cu.comments.map commentLine ++ (size3DLine cu.table.length :: rb3) ++
        (flattenF cu.table).map (fmtV3 dec) → Starts3DRange l → l ∈ rb3 := by
      intro l hl hs
      simp only [List.mem_append, List.mem_cons, List.not_mem_nil, or_false] at hl
      rcases hl with (((rfl | hA) | hB) | (rfl | hrb)) | hE
      · exact absurd hs (not_s3r_title nm)
      · exact absurd hs (no_s3r_comments hA)
      · exact absurd hs (no_s3r_comments hB)
      · exact absurd hs (not_s3r_size3D _)
      · exact hrb
      · exact absurd hs (no_s3r_flat hE)
    refine ⟨⟨?_, ?_⟩, ?_, ⟨?_, ?_⟩, ?_⟩
    · rintro ⟨l, hl, hs⟩
      exact (key1 l hl hs).elim
    · rintro ⟨hf, -⟩
      exact absurd hf (by decide)
    · intro l hl hs
      exact (key1 l hl hs).elim
    · rintro ⟨l, hl, hs⟩
      exact ⟨rfl, (s3r_rb3_mem hrb3 (key3 l hl hs)).1⟩
    · rintro ⟨-, hne⟩
      rcases rangeBlock3D_inv hrb3 with ⟨hdd, -⟩ | ⟨-, d0, d1, drest, hdom, hone⟩
      · exact absurd hdd hne
      · refine ⟨range3DLine dec d0.1 d1.1, ?_, s3r_range3D dec d0.1 d1.1⟩
        simp [hone]
    · intro l hl hs
      exact (s3r_rb3_mem hrb3 (key3 l hl hs)).2
  · -- shaper only
    obtain ⟨rb1, rs, hrb1, hrs, hsh⟩ := writeCore_2D_inv h
    subst hsh
    have key1 : ∀ l, l ∈ [titleLine nm] ++ sh.comments.map commentLine ++
        cu.comments.map commentLine ++ (size1DLine sh.table.length :: rb1) ++
        (rs ++ [""]) → Starts1DRange l → l ∈ rb1 := by
      intro l hl hs
      simp only [List.mem_append, List.mem_cons, List.not_mem_nil, or_false] at hl
      rcases hl with (((rfl | hA) | hB) | (rfl | hrb)) | (hD | rfl)
      · exact absurd hs (not_s1r_title nm)
      · exact absurd hs (no_s1r_comments hA)
      · exact absurd hs (no_s1r_comments hB)
      · exact absurd hs (not_s1r_size1D _)
      · exact hrb
      · exact absurd hs (no_s1r_rows hrs hD)
      · exact absurd hs not_s1r_blank
    have key3 : ∀ l, l ∈ [titleLine nm] ++ sh.comments.map commentLine ++
        cu.comments.map commentLine ++ (size1DLine sh.table.length :: rb1) ++
        (rs ++ [""]) → Starts3DRange l → False := by
      intro l hl hs
      simp only [List.mem_append, List.mem_cons, List.not_mem_nil, or_false] at hl
      rcases hl with (((rfl | hA) | hB) | (rfl | hrb)) | (hD | rfl)
      · exact not_s3r_title nm hs
      · exact no_s3r_comments hA hs
      · exact no_s3r_comments hB hs
      · exact not_s3r_size1D _ hs
      · exact no_s3r_rb1 hrb1 hrb hs
      · exact no_s3r_rows hrs hD hs
      · exact not_s3r_blank hs
    refine ⟨⟨?_, ?_⟩, ?_, ⟨?_, ?_⟩, ?_⟩
    · rintro ⟨l, hl, hs⟩
      exact ⟨rfl, (s1r_rb1_mem hrb1 (key1 l hl hs)).1⟩
    · rintro ⟨-, hne⟩
      rcases rangeBlock1D_inv hrb1 with ⟨hdd, -⟩ | ⟨-, d0, d1, drest, hdom, hone⟩
      · exact absurd hdd hne
      · refine ⟨range1DLine dec d0.1 d1.1, ?_, s1r_range1D dec d0.1 d1.1⟩
        simp [hone]
    · intro l hl hs
      exact (s1r_rb1_mem hrb1 (key1 l hl hs)).2
    · rintro ⟨l, hl, hs⟩
      exact (key3 l hl hs).elim
    · rintro ⟨hf, -⟩
      exact absurd hf (by decide)
    · intro l hl hs
      exact (key3 l hl hs).elim
  · -- both stages
    obtain ⟨rb1, rb3, rs, hrb1, hrb3, hrs, hsh⟩ := writeCore_seq_inv h
    subst hsh
    have key1 : ∀ l, l ∈ [titleLine nm] ++ sh.comments.map commentLine ++
        cu.comments.map commentLine ++ (size1DLine sh.table.length :: rb1) ++
        (size3DLine cu.table.length :: rb3) ++ (rs ++ [""]) ++
        (flattenF cu.table).map (fmtV3 dec) → Starts1DRange l → l ∈ rb1 := by
      intro l hl hs
      simp only [List.mem_append, List.mem_cons, List.not_mem_nil, or_false] at hl
      rcases hl with ((((((rfl | hA) | hB) | (rfl | hrb)) | (rfl | hrb)) | (hD | rfl)) | hE)
      · exact absurd hs (not_s1r_title nm)
      · exact absurd hs (no_s1r_comments hA)
      · exact absurd hs (no_s1r_comments hB)
      · exact absurd hs (not_s1r_size1D _)
      · exact hrb
      · exact absurd hs (not_s1r_size3D _)
      · exact absurd hs (no_s1r_rb3 hrb3 hrb)
      · exact absurd hs (no_s1r_rows hrs hD)
      · exact absurd hs not_s1r_blank
      · exact absurd hs (no_s1r_flat hE)
    have key3 : ∀ l, l ∈ [titleLine nm] ++ sh.comments.map commentLine ++
        cu.comments.map commentLine ++ (size1DLine sh.table.length :: rb1) ++
        (size3DLine cu.table.length :: rb3) ++ (rs ++ [""]) ++
        (flattenF cu.table).map (fmtV3 dec) → Starts3DRange l → l ∈ rb3 := by
      intro l hl hs
      simp only [List.mem_append, List.mem_cons, List.not_mem_nil, or_false] at hl
      rcases hl with ((((((rfl | hA) | hB) | (rfl | hrb)) | (rfl | hrb)) | (hD | rfl)) | hE)
      · exact absurd hs (not_s3r_title nm)
      · exact absurd hs (no_s3r_comments hA)
      · exact absurd hs (no_s3r_comments hB)
      · exact absurd hs (not_s3r_size1D _)
      · exact absurd hs (no_s3r_rb1 hrb1 hrb)
      · exact absurd hs (not_s3r_size3D _)
      · exact hrb
      · exact absurd hs (no_s3r_rows hrs hD)
      · exact absurd hs not_s3r_blank
      · exact absurd hs (no_s3r_flat hE)
    refine ⟨⟨?_, ?_⟩, ?_, ⟨?_, ?_⟩, ?_⟩
    · rintro ⟨l, hl, hs⟩
      exact ⟨rfl, (s1r_rb1_mem hrb1 (key1 l hl hs)).1⟩
    · rintro ⟨-, hne⟩
      rcases rangeBlock1D_inv hrb1 with ⟨hdd, -⟩ | ⟨-, d0, d1, drest, hdom, hone⟩
      · exact absurd hdd hne
      · refine ⟨range1DLine dec d0.1 d1.1, ?_, s1r_range1D dec d0.1 d1.1⟩
        simp [hone]
    · intro l hl hs
      exact (s1r_rb1_mem hrb1 (key1 l hl hs)).2
    · rintro ⟨l, hl, hs⟩
      exact ⟨rfl, (s3r_rb3_mem hrb3 (key3 l hl hs)).1⟩
    · rintro ⟨-, hne⟩
      rcases rangeBlock3D_inv hrb3 with ⟨hdd, -⟩ | ⟨-, d0, d1, drest, hdom, hone⟩
      · exact absurd hdd hne
      · refine ⟨range3DLine dec d0.1 d1.1, ?_, s3r_range3D dec d0.1 d1.1⟩
        simp [hone]
    · intro l hl hs
      exact (s3r_rb3_mem hrb3 (key3 l hl hs)).2

theorem processLines_single {st st2 : RState} {l : String}
    (h : processLine st l = .ok st2) : processLines st [l] = .ok st2 := by
  unfold processLines
  simp only [h]
  rfl

theorem processLines_chain {st stm : RState} {xs ys : List String}
    {r : Except String RState} (h1 : processLines st xs = .ok stm)
    (h2 : processLines stm ys = r) : processLines st (xs ++ ys) = r := by
  rw [processLines_append]
  simp only [h1]
  exact h2

theorem map_trim_of_TrimInv {cms : List String} (h : ∀ cm ∈ cms, TrimInv cm) :
    cms.map (fun cm => String.mk (trimChars cm.data)) = cms := by
  have h2 : ∀ cm ∈ cms, String.mk (trimChars cm.data) = id cm := by
    intro cm hm
    rw [h cm hm]
    rfl
  rw [List.map_congr_left h2, List.map_id]

theorem map_fmt_rows (dec : ℕ) (tbl : List (List ℚ)) :
    (tbl.map fun row => fmtV3 dec (row.getD 0 0, row.getD 1 0, row.getD 2 0)) =
      (tbl.map rowV3).map (fmtV3 dec) := by
  rw [List.map_map]
  rfl

theorem uniqueCount_rect {a b : ℚ} (hab : a ≠ b) :
    uniqueCount [(a, a, a), (b, b, b)] = 2 := by
  show ([a, a, a, b, b, b] : List ℚ).dedup.length = 2
  rw [List.dedup_cons_of_mem (by simp), List.dedup_cons_of_mem (by simp),
    List.dedup_cons_of_not_mem (by simp [hab]), List.dedup_cons_of_mem (by simp),
    List.dedup_cons_of_mem (by simp), List.dedup_cons_of_not_mem (by simp)]
  simp

theorem uniqueCount_default : uniqueCount defaultDomain = 2 := by decide

theorem scan_writer_2D (stem nm : String) (cms cms3 : List String) (n : ℕ)
    (rbv : List String) (vs : List V3) (dec : ℕ) (F : Domain → Domain)
    (hscan : ∀ st : RState, processLines st rbv = .ok { st with dom2D := F st.dom2D }) :
    ∃ ttl, processLines (initState stem)
        ([titleLine nm] ++ cms.map commentLine ++ cms3.map commentLine ++
          (size1DLine n :: rbv) ++ (vs.map (fmtV3 dec) ++ [""])) =
      .ok ⟨ttl, n, 2,
        vs.map fun v => [rnd dec v.1, rnd dec v.2.1, rnd dec v.2.2],
        cms.map (fun cm => String.mk (trimChars cm.data)) ++
          cms3.map fun cm => String.mk (trimChars cm.data),
        true, false, F defaultDomain, defaultDomain⟩ := by
  obtain ⟨ttl, hT⟩ := processLine_title (initState stem) nm
  refine ⟨ttl, ?_⟩
  have hL : [titleLine nm] ++ cms.map commentLine ++ cms3.map commentLine ++
      (size1DLine n :: rbv) ++ (vs.map (fmtV3 dec) ++ [""]) =
      [titleLine nm] ++ (cms.map commentLine ++ (cms3.map commentLine ++
        ([size1DLine n] ++ (rbv ++ (vs.map (fmtV3 dec) ++ [""]))))) := by
    simp
  rw [hL]
  apply processLines_chain (processLines_single hT)
  apply processLines_chain (processLines_comments _ cms)
  apply processLines_chain (processLines_comments _ cms3)
  apply processLines_chain (processLines_single (processLine_size1D _ n))
  apply processLines_chain (hscan _)
  apply processLines_chain (processLines_dataV3 _ dec vs)
  rw [processLines_single (processLine_blank _)]
  rfl

theorem scan_writer_3D (stem nm : String) (cms cms3 : List String) (n : ℕ)
    (rbv : List String) (vs : List V3) (dec : ℕ) (F : Domain → Domain)
    (hscan : ∀ st : RState, processLines st rbv = .ok { st with dom3D := F st.dom3D }) :
    ∃ ttl, processLines (initState stem)
        ([titleLine nm] ++ cms.map commentLine ++ cms3.map commentLine ++
          (size3DLine n :: rbv) ++ vs.map (fmtV3 dec)) =
      .ok ⟨ttl, 2, n,
        vs.map fun v => [rnd dec v.1, rnd dec v.2.1, rnd dec v.2.2],
        cms.map (fun cm => String.mk (trimChars cm.data)) ++
          cms3.map fun cm => String.mk (trimChars cm.data),
        false, true, defaultDomain, F defaultDomain⟩ := by
  obtain ⟨ttl, hT⟩ := processLine_title (initState stem) nm
  refine ⟨ttl, ?_⟩
  have hL : [titleLine nm] ++ cms.map commentLine ++ cms3.map commentLine ++
      (size3DLine n :: rbv) ++ vs.map (fmtV3 dec) =
      [titleLine nm] ++ (cms.map commentLine ++ (cms3.map commentLine ++
        ([size3DLine n] ++ (rbv ++ vs.map (fmtV3 dec))))) := by
    simp
  rw [hL]
  apply processLines_chain (processLines_single hT)
  apply processLines_chain (processLines_comments _ cms)
  apply processLines_chain (processLines_comments _ cms3)
  apply processLines_chain (processLines_single (processLine_size3D _ n))
  apply processLines_chain (hscan _)
  rw [processLines_dataV3 _ dec vs]
  rfl

/-! ### Claim theorems -/

theorem writeResult_eq (lut : WLUT) (dec : ℕ) :
    writeResult lut dec =
      writeCore (shOf lut) (cuOf lut) (has2DOf lut) (has3DOf lut) (nameOf lut) dec := by
  cases lut with
  | oneD l => rfl
  | twoD l => rfl
  | threeD l => rfl
  | seqW f cu => cases f with
    | inl l1 => rfl
    | inr l2 => rfl

/-- Claim C9: for every combined (shaper, cube) input, all shaper-stage
comments serialise before all cube-stage comments, each group in its
internal order, and the comment block sits right after the TITLE line and
before any size directive (the next line is LUT_1D_SIZE). -/
theorem claim_C9_comment_order (f : LUT1D ⊕ LUT2D) (cu : LUT3D) (dec : ℕ)
    {lines : List String} (hwr : writeResult (.seqW f cu) dec = .ok lines) :
    (shOf (.seqW f cu)).comments =
      Sum.elim (fun l1 => l1.comments) (fun l2 => l2.comments) f ∧
    ∃ rest, lines = titleLine cu.name ::
      ((shOf (.seqW f cu)).comments.map commentLine ++
       cu.comments.map commentLine ++
       (size1DLine (shOf (.seqW f cu)).table.length :: rest)) := by
  cases f with
  | inl l1 =>
    have hcore : writeCore (as2D l1) cu true true cu.name dec = .ok lines := hwr
    obtain ⟨rb1, rb3, rs, -, -, -, hsh⟩ := writeCore_seq_inv hcore
    refine ⟨rfl, rb1 ++ (size3DLine cu.table.length :: rb3) ++ (rs ++ [""]) ++
      (flattenF cu.table).map (fmtV3 dec), ?_⟩
    rw [hsh]
    simp [shOf, stages]
  | inr l2 =>
    have hcore : writeCore l2 cu true true cu.name dec = .ok lines := hwr
    obtain ⟨rb1, rb3, rs, -, -, -, hsh⟩ := writeCore_seq_inv hcore
    refine ⟨rfl, rb1 ++ (size3DLine cu.table.length :: rb3) ++ (rs ++ [""]) ++
      (flattenF cu.table).map (fmtV3 dec), ?_⟩
    rw [hsh]
    simp [shOf, stages]

/-- Claim C9 witness: a concrete two-stage input with one comment on each
stage. -/
theorem claim_C9_witness :
    writeResult (.seqW (.inr exShaper2) exLUT3D) 2 =
      .ok ([titleLine "B"] ++ [commentLine "a"] ++ [commentLine "b"] ++
        (size1DLine 2 :: []) ++ (size3DLine 2 :: []) ++
        ([fmtV3 2 (0, 0, 0), fmtV3 2 (1, 1, 1)] ++ [""]) ++
        (flattenF wCube2).map (fmtV3 2)) ∧
    ((shOf (.seqW (.inr exShaper2) exLUT3D)).comments =
      Sum.elim (fun l1 => l1.comments) (fun l2 => l2.comments)
        (.inr exShaper2 : LUT1D ⊕ LUT2D) ∧
     ∃ rest, ([titleLine "B"] ++ [commentLine "a"] ++ [commentLine "b"] ++
        (size1DLine 2 :: []) ++ (size3DLine 2 :: []) ++
        ([fmtV3 2 (0, 0, 0), fmtV3 2 (1, 1, 1)] ++ [""]) ++
        (flattenF wCube2).map (fmtV3 2)) = titleLine exLUT3D.name ::
      ((shOf (.seqW (.inr exShaper2) exLUT3D)).comments.map commentLine ++
       exLUT3D.comments.map commentLine ++
       (size1DLine (shOf (.seqW (.inr exShaper2) exLUT3D)).table.length :: rest))) := by
  have hwr : writeResult (.seqW (.inr exShaper2) exLUT3D) 2 =
      .ok ([titleLine "B"] ++ [commentLine "a"] ++ [commentLine "b"] ++
        (size1DLine 2 :: []) ++ (size3DLine 2 :: []) ++
        ([fmtV3 2 (0, 0, 0), fmtV3 2 (1, 1, 1)] ++ [""]) ++
        (flattenF wCube2).map (fmtV3 2)) := by
    show writeCore exShaper2 exLUT3D true true "B" 2 = _
    rw [writeCore_seq (by decide) (by decide) (by decide)
      (rangeBlock1D_default 2) (rangeBlock3D_default 2) (mapExcRows_ok (by decide))]
    rfl
  exact ⟨hwr, claim_C9_comment_order (.inr exShaper2) exLUT3D 2 hwr⟩

/-- Claim C8: a LUT_1D_INPUT_RANGE (resp. LUT_3D_INPUT_RANGE) line appears
in the output exactly when the corresponding stage is written and its
domain differs from the default; any such line carries the channel-0
endpoints of that stage's domain, and fixed-point formatting always emits
exactly the configured number of fractional digits. -/
theorem claim_C8_input_range_lines (lut : WLUT) (dec : ℕ) {lines : List String}
    (hwr : writeResult lut dec = .ok lines) :
    ((∃ l ∈ lines, Starts1DRange l) ↔
        (has2DOf lut = true ∧ (shOf lut).domain ≠ defaultDomain)) ∧
    (∀ l ∈ lines, Starts1DRange l → ∃ d0 d1 drest,
        (shOf lut).domain = d0 :: d1 :: drest ∧ l = range1DLine dec d0.1 d1.1) ∧
    ((∃ l ∈ lines, Starts3DRange l) ↔
        (has3DOf lut = true ∧ (cuOf lut).domain ≠ defaultDomain)) ∧
    (∀ l ∈ lines, Starts3DRange l → ∃ d0 d1 drest,
        (cuOf lut).domain = d0 :: d1 :: drest ∧ l = range3DLine dec d0.1 d1.1) ∧
    (∀ x : ℚ, fracLen (fmtFixed dec x) = dec) := by
  cases lut with
  | oneD l =>
    have hcore : writeCore (as2D l) defaultLUT3D true false l.name dec = .ok lines := hwr
    obtain ⟨a, b, c, d⟩ := writeCore_range_emission hcore
    exact ⟨a, b, c, d, fun x => fracLen_fmtFixed dec x⟩
  | twoD l =>
    have hcore : writeCore l defaultLUT3D true false l.name dec = .ok lines := hwr
    obtain ⟨a, b, c, d⟩ := writeCore_range_emission hcore
    exact ⟨a, b, c, d, fun x => fracLen_fmtFixed dec x⟩
  | threeD l =>
    have hcore : writeCore defaultLUT2D l false true l.name dec = .ok lines := hwr
    obtain ⟨a, b, c, d⟩ := writeCore_range_emission hcore
    exact ⟨a, b, c, d, fun x => fracLen_fmtFixed dec x⟩
  | seqW f cu =>
    cases f with
    | inl l1 =>
      have hcore : writeCore (as2D l1) cu true true cu.name dec = .ok lines := hwr
      obtain ⟨a, b, c, d⟩ := writeCore_range_emission hcore
      exact ⟨a, b, c, d, fun x => fracLen_fmtFixed dec x⟩
    | inr l2 =>
      have hcore : writeCore l2 cu true true cu.name dec = .ok lines := hwr
      obtain ⟨a, b, c, d⟩ := writeCore_range_emission hcore
      exact ⟨a, b, c, d, fun x => fracLen_fmtFixed dec x⟩

/-- Claim C8 witness: a shaper with a non-default domain emits exactly one
LUT_1D_INPUT_RANGE line with the channel-0 endpoints. -/
theorem claim_C8_witness :
    writeResult (.twoD exLUT2D) 2 = .ok exLines2D ∧
    (((∃ l ∈ exLines2D, Starts1DRange l) ↔
        (has2DOf (.twoD exLUT2D) = true ∧ (shOf (.twoD exLUT2D)).domain ≠ defaultDomain)) ∧
     (∀ l ∈ exLines2D, Starts1DRange l → ∃ d0 d1 drest,
        (shOf (.twoD exLUT2D)).domain = d0 :: d1 :: drest ∧
          l = range1DLine 2 d0.1 d1.1) ∧
     ((∃ l ∈ exLines2D, Starts3DRange l) ↔
        (has3DOf (.twoD exLUT2D) = true ∧ (cuOf (.twoD exLUT2D)).domain ≠ defaultDomain)) ∧
     (∀ l ∈ exLines2D, Starts3DRange l → ∃ d0 d1 drest,
        (cuOf (.twoD exLUT2D)).domain = d0 :: d1 :: drest ∧
          l = range3DLine 2 d0.1 d1.1) ∧
     (∀ x : ℚ, fracLen (fmtFixed 2 x) = 2)) := by
  have hrb : rangeBlock1D 2 exLUT2D.domain = .ok [range1DLine 2 (-1) 3] :=
    @rangeBlock1D_cons exLUT2D.domain (-1, -1, -1) (3, 3, 3) [] 2 rfl (by decide)
  have hrs : mapExcRows 2 exLUT2D.table = .ok [fmtV3 2 (0, 0, 0), fmtV3 2 (3, 3, 3)] := by
    rw [mapExcRows_ok (by decide)]
    rfl
  have hwr : writeResult (.twoD exLUT2D) 2 = .ok exLines2D := by
    show writeCore exLUT2D defaultLUT3D true false "A" 2 = _
    rw [writeCore_2D (by decide) (by decide) hrb hrs]
    rfl
  exact ⟨hwr, claim_C8_input_range_lines (.twoD exLUT2D) 2 hwr⟩

/-- Claim C10: for every input line that, after stripping, begins with the
comment marker, the reader stores the text after the marker with both
leading and trailing whitespace removed (processLine appends exactly
trimChars of the text following the marker). -/
theorem claim_C10_comment_trimming (st : RState) (w body : List Char)
    (hw : ∀ c ∈ w, c.isWhitespace = true) :
    processLine st (String.mk (w ++ '#' :: body)) =
      .ok { st with comments := st.comments ++ [String.mk (trimChars body)] } := by
  have hred : processLine st (String.mk (w ++ '#' :: body)) =
      processTrimmed st (trimChars (w ++ '#' :: body)) := rfl
  have h1 : trimChars (w ++ '#' :: body) = '#' :: rtrimC body := by
    rw [trimChars_eq_rl]
    unfold ltrimC
    rw [dropWhile_append_of_all hw,
      dropWhile_eq_self_of_head (by
        intro c hc
        simp only [List.head?_cons, Option.mem_def, Option.some_inj] at hc
        subst hc
        decide),
      rtrimC_cons_of_nonws (by decide)]
  rw [hred, h1]
  unfold processTrimmed
  rw [if_neg (by simp), if_pos (by simp)]
  rw [List.tail_cons, trimChars_rtrimC]

/-- Claim C10 witness: a concrete line with surrounding whitespace inside
the comment loses exactly that whitespace. -/
theorem claim_C10_witness :
    (∀ c ∈ [' ', ' '], c.isWhitespace = true) ∧
      processLine (initState "t") (String.mk
          ([' ', ' '] ++ '#' :: [' ', 'h', 'i', ' '])) =
        .ok { initState "t" with comments :=
          (initState "t").comments ++ [String.mk (trimChars [' ', 'h', 'i', ' '])] } :=
  ⟨by decide, claim_C10_comment_trimming (initState "t") [' ', ' '] [' ', 'h', 'i', ' ']
    (by decide)⟩

/-- Claim C5 (code bug evidence): a file with data rows but neither
LUT_1D_SIZE nor LUT_3D_SIZE makes read_LUT_ResolveCube fall off the end of
its classification ladder and return None (modelled Except.ok none); no
FormatError is raised. -/
theorem claim_C5_returns_none :
    readLUT "test" ["0.1 0.2 0.3", "0.4 0.5 0.6"] = .ok none := by rfl

/-- Claim C6 (code bug evidence): a shaper-only file declaring
LUT_1D_SIZE 3 but containing two data rows is read without any error into
a two-row table; the declared size is silently ignored instead of causing
a failure. -/
theorem claim_C6_ignores_declared_size :
    readLUT "test" ["LUT_1D_SIZE 3", "0 0 0", "1 1 1"] =
      .ok (some (.shaper2D ⟨"test", defaultDomain, [[0, 0, 0], [1, 1, 1]], []⟩)) := by decide

/-- Claim C7: the writer rejects out-of-range sizes: when the shaper stage
is present with size outside [2, 65536], or the cube stage is present with
size outside [2, 256], write fails with an assertion (validation) error
and never produces a success value. -/
theorem claim_C7_boundary_rejection (lut : WLUT) (dec : ℕ)
    (h : (has2DOf lut = true ∧ ¬(2 ≤ (shOf lut).size ∧ (shOf lut).size ≤ 65536)) ∨
         (has3DOf lut = true ∧ ¬(2 ≤ (cuOf lut).size ∧ (cuOf lut).size ≤ 256))) :
    ∃ e, writeResult lut dec = .error e := by
  rw [writeResult_eq]
  unfold writeCore
  by_cases hd : ¬(uniqueCount (shOf lut).domain = 2 ∧ uniqueCount (cuOf lut).domain = 2)
  · rw [if_pos hd]
    exact ⟨_, rfl⟩
  rw [if_neg hd]
  rcases h with ⟨h2, hsz⟩ | ⟨h3, hsz⟩
  · rw [if_pos (by simp [h2, hsz])]
    exact ⟨_, rfl⟩
  · by_cases hfst : (has2DOf lut : Prop) ∧ ¬(2 ≤ (shOf lut).size ∧ (shOf lut).size ≤ 65536)
    · rw [if_pos hfst]
      exact ⟨_, rfl⟩
    · rw [if_neg hfst, if_pos (by simp [h3, hsz])]
      exact ⟨_, rfl⟩

/-- Claim C7 witness: a shaper with a single row (size 1) is rejected. -/
theorem claim_C7_witness :
    ((has2DOf (.twoD ⟨"A", defaultDomain, [[0, 0, 0]], []⟩) = true ∧
      ¬(2 ≤ (shOf (.twoD ⟨"A", defaultDomain, [[0, 0, 0]], []⟩)).size ∧
        (shOf (.twoD ⟨"A", defaultDomain, [[0, 0, 0]], []⟩)).size ≤ 65536)) ∨
     (has3DOf (.twoD ⟨"A", defaultDomain, [[0, 0, 0]], []⟩) = true ∧
      ¬(2 ≤ (cuOf (.twoD ⟨"A", defaultDomain, [[0, 0, 0]], []⟩)).size ∧
        (cuOf (.twoD ⟨"A", defaultDomain, [[0, 0, 0]], []⟩)).size ≤ 256))) ∧
    ∃ e, writeResult (.twoD ⟨"A", defaultDomain, [[0, 0, 0]], []⟩) 7 = .error e :=
  ⟨by decide,
    claim_C7_boundary_rejection (.twoD ⟨"A", defaultDomain, [[0, 0, 0]], []⟩) 7 (by decide)⟩

/-- Claim C4 counterexample: write on a LUTSequence whose first element is
a LUT1D succeeds and replaces the caller's first element with its LUT2D
conversion: the input object is mutated. -/
theorem claim_C4_counterexample :
    (∃ ls, (writeLUT (.seqW (.inl ⟨"A", (0, 1), [0, 1], []⟩)
        ⟨"B", defaultDomain,
          [[[(0, 0, 0), (0, 0, 0)], [(0, 0, 0), (0, 0, 0)]],
           [[(0, 0, 0), (0, 0, 0)], [(0, 0, 0), (0, 0, 0)]]], []⟩) 1).1 = .ok ls) ∧
      (writeLUT (.seqW (.inl ⟨"A", (0, 1), [0, 1], []⟩)
        ⟨"B", defaultDomain,
          [[[(0, 0, 0), (0, 0, 0)], [(0, 0, 0), (0, 0, 0)]],
           [[(0, 0, 0), (0, 0, 0)], [(0, 0, 0), (0, 0, 0)]]], []⟩) 1).2 ≠
      .seqW (.inl ⟨"A", (0, 1), [0, 1], []⟩)
        ⟨"B", defaultDomain,
          [[[(0, 0, 0), (0, 0, 0)], [(0, 0, 0), (0, 0, 0)]],
           [[(0, 0, 0), (0, 0, 0)], [(0, 0, 0), (0, 0, 0)]]], []⟩ :=
  ⟨⟨_, rfl⟩, by decide⟩

/-- Claim C4 amended: the writer does not mutate its input except for a
LUTSequence whose first element is a LUT1D, whose first slot is replaced
in place by its LUT2D conversion; every other accepted input is returned
to the caller unchanged. -/
theorem claim_C4_amended_no_mutation (lut : WLUT) (dec : ℕ)
    (h : ∀ l1 cu, lut ≠ .seqW (.inl l1) cu) : (writeLUT lut dec).2 = lut := by
  cases lut with
  | oneD l => rfl
  | twoD l => rfl
  | threeD l => rfl
  | seqW f cu =>
    cases f with
    | inl l1 => exact absurd rfl (h l1 cu)
    | inr l2 => rfl

/-- Claim C4 amended witness: a plain LUT2D input is unchanged after a
successful write. -/
theorem claim_C4_amended_witness :
    (∀ l1 cu, (.twoD ⟨"A", defaultDomain, [[0, 0, 0], [1, 1, 1]], []⟩ : WLUT) ≠
      .seqW (.inl l1) cu) ∧
    (writeLUT (.twoD ⟨"A", defaultDomain, [[0, 0, 0], [1, 1, 1]], []⟩) 7).2 =
      .twoD ⟨"A", defaultDomain, [[0, 0, 0], [1, 1, 1]], []⟩ :=
  ⟨(fun l1 cu h => by cases h),
    claim_C4_amended_no_mutation _ 7 (fun l1 cu h => by cases h)⟩

/-- Claim C2: for every valid shaper table with a rectilinear two-valued
domain and trim-invariant comments, reading the file produced by writing
the shaper yields a shaper object whose comments agree exactly and whose
table and domain scalars agree with the input within 10^-decimals. -/
theorem claim_C2_shaper_roundtrip (lut : LUT2D) (dec : ℕ) (stem : String) (a b : ℚ)
    (hdom : lut.domain = [(a, a, a), (b, b, b)]) (hab : a ≠ b)
    (hw : ∀ row ∈ lut.table, row.length = 3)
    (hn2 : 2 ≤ lut.table.length) (hn6 : lut.table.length ≤ 65536)
    (hcm : ∀ cm ∈ lut.comments, TrimInv cm) :
    ∃ lines L, writeResult (.twoD lut) dec = .ok lines ∧
      readLUT stem lines = .ok (some (.shaper2D L)) ∧
      L.comments = lut.comments ∧
      L.table.length = lut.table.length ∧
      (∀ i j, i < lut.table.length → j < 3 →
        |(L.table.getD i []).getD j 0 - (lut.table.getD i []).getD j 0| ≤ 1 / 10 ^ dec) ∧
      L.domain.length = lut.domain.length ∧
      (∀ i, i < lut.domain.length →
        |(L.domain.getD i (0, 0, 0)).1 - (lut.domain.getD i (0, 0, 0)).1| ≤ 1 / 10 ^ dec ∧
        |(L.domain.getD i (0, 0, 0)).2.1 - (lut.domain.getD i (0, 0, 0)).2.1| ≤ 1 / 10 ^ dec ∧
        |(L.domain.getD i (0, 0, 0)).2.2 - (lut.domain.getD i (0, 0, 0)).2.2| ≤ 1 / 10 ^ dec) := by
  obtain ⟨rbv, F, hrb, hscan, hdlen, hdbnd⟩ : ∃ (rbv : List String) (F : Domain → Domain),
      rangeBlock1D dec lut.domain = .ok rbv ∧
      (∀ st : RState, processLines st rbv = .ok { st with dom2D := F st.dom2D }) ∧
      (F defaultDomain).length = lut.domain.length ∧
      (∀ i, i < lut.domain.length →
        |((F defaultDomain).getD i (0, 0, 0)).1 -
          (lut.domain.getD i (0, 0, 0)).1| ≤ 1 / 10 ^ dec ∧
        |((F defaultDomain).getD i (0, 0, 0)).2.1 -
          (lut.domain.getD i (0, 0, 0)).2.1| ≤ 1 / 10 ^ dec ∧
        |((F defaultDomain).getD i (0, 0, 0)).2.2 -
          (lut.domain.getD i (0, 0, 0)).2.2| ≤ 1 / 10 ^ dec) := by
    by_cases hdd : lut.domain = defaultDomain
    · refine ⟨[], id, by rw [hdd]; exact rangeBlock1D_default dec, fun st => rfl, ?_, ?_⟩
      · rw [hdd]
        rfl
      · intro i hi
        rw [hdd]
        refine ⟨?_, ?_, ?_⟩ <;> simp only [id_eq, sub_self, abs_zero] <;> positivity
    · refine ⟨[range1DLine dec a b],
        fun _ => [(rnd dec a, rnd dec a, rnd dec a), (rnd dec b, rnd dec b, rnd dec b)],
        @rangeBlock1D_cons lut.domain (a, a, a) (b, b, b) [] dec hdom hdd,
        fun st => processLines_single (processLine_range1D st dec a b), ?_, ?_⟩
      · rw [hdom]
        rfl
      · intro i hi
        rw [hdom] at hi ⊢
        have hi2 : i < 2 := by simpa using hi
        interval_cases i
        · exact ⟨abs_rnd_sub_le dec a, abs_rnd_sub_le dec a, abs_rnd_sub_le dec a⟩
        · exact ⟨abs_rnd_sub_le dec b, abs_rnd_sub_le dec b, abs_rnd_sub_le dec b⟩
  have huc : uniqueCount lut.domain = 2 := by rw [hdom]; exact uniqueCount_rect hab
  have hrs : mapExcRows dec lut.table = .ok ((lut.table.map rowV3).map (fmtV3 dec)) := by
    rw [mapExcRows_ok hw, map_fmt_rows]
  have hwr : writeResult (.twoD lut) dec =
      .ok ([titleLine lut.name] ++ lut.comments.map commentLine ++
        defaultLUT3D.comments.map commentLine ++
        (size1DLine lut.table.length :: rbv) ++
        ((lut.table.map rowV3).map (fmtV3 dec) ++ [""])) := by
    show writeCore lut defaultLUT3D true false lut.name dec = _
    exact writeCore_2D ⟨huc, uniqueCount_default⟩ ⟨hn2, hn6⟩ hrb hrs
  obtain ⟨ttl, hsc⟩ := scan_writer_2D stem lut.name lut.comments defaultLUT3D.comments
    lut.table.length rbv (lut.table.map rowV3) dec F hscan
  refine ⟨_, ⟨ttl, F defaultDomain,
    (lut.table.map rowV3).map fun v => [rnd dec v.1, rnd dec v.2.1, rnd dec v.2.2],
    lut.comments.map (fun cm => String.mk (trimChars cm.data)) ++
      defaultLUT3D.comments.map fun cm => String.mk (trimChars cm.data)⟩,
    hwr, ?_, ?_, ?_, ?_, ?_, ?_⟩
  · rw [readLUT_eq hsc]
    exact classify_2D rfl rfl
  · show lut.comments.map (fun cm => String.mk (trimChars cm.data)) ++
      defaultLUT3D.comments.map (fun cm => String.mk (trimChars cm.data)) = lut.comments
    rw [show defaultLUT3D.comments.map (fun cm => String.mk (trimChars cm.data)) =
      ([] : List String) from rfl, List.append_nil]
    exact map_trim_of_TrimInv hcm
  · show (((lut.table.map rowV3).map fun v =>
      [rnd dec v.1, rnd dec v.2.1, rnd dec v.2.2]).length) = lut.table.length
    simp
  · intro i j hi hj
    have hi1 : i < (lut.table.map rowV3).length := by simpa using hi
    show |((((lut.table.map rowV3).map fun v =>
        [rnd dec v.1, rnd dec v.2.1, rnd dec v.2.2]).getD i []).getD j 0) -
      ((lut.table.getD i []).getD j 0)| ≤ 1 / 10 ^ dec
    rw [getD_map_lt _ hi1 (0, 0, 0) []]
    rw [getD_map_lt rowV3 hi [] (0, 0, 0)]
    interval_cases j
    · exact abs_rnd_sub_le dec _
    · exact abs_rnd_sub_le dec _
    · exact abs_rnd_sub_le dec _
  · exact hdlen
  · exact hdbnd

/-- Claim C2 witness: the concrete two-row shaper with domain endpoints
-1 and 3 and one comment round-trips within one hundredth. -/
theorem claim_C2_witness :
    (exLUT2D.domain = [((-1 : ℚ), -1, -1), (3, 3, 3)] ∧ ((-1 : ℚ) ≠ 3) ∧
     (∀ row ∈ exLUT2D.table, row.length = 3) ∧
     2 ≤ exLUT2D.table.length ∧ exLUT2D.table.length ≤ 65536 ∧
     (∀ cm ∈ exLUT2D.comments, TrimInv cm)) ∧
    (∃ lines L, writeResult (.twoD exLUT2D) 2 = .ok lines ∧
      readLUT "t" lines = .ok (some (.shaper2D L)) ∧
      L.comments = exLUT2D.comments ∧
      L.table.length = exLUT2D.table.length ∧
      (∀ i j, i < exLUT2D.table.length → j < 3 →
        |(L.table.getD i []).getD j 0 - (exLUT2D.table.getD i []).getD j 0| ≤ 1 / 10 ^ 2) ∧
      L.domain.length = exLUT2D.domain.length ∧
      (∀ i, i < exLUT2D.domain.length →
        |(L.domain.getD i (0, 0, 0)).1 - (exLUT2D.domain.getD i (0, 0, 0)).1| ≤ 1 / 10 ^ 2 ∧
        |(L.domain.getD i (0, 0, 0)).2.1 -
          (exLUT2D.domain.getD i (0, 0, 0)).2.1| ≤ 1 / 10 ^ 2 ∧
        |(L.domain.getD i (0, 0, 0)).2.2 -
          (exLUT2D.domain.getD i (0, 0, 0)).2.2| ≤ 1 / 10 ^ 2)) :=
  ⟨⟨rfl, by decide, by decide, by decide, by decide, by decide⟩,
   claim_C2_shaper_roundtrip exLUT2D 2 "t" (-1) 3 rfl (by decide) (by decide)
     (by decide) (by decide) (by decide)⟩

/-- Claim C1: for every cube table of side S (2 ≤ S ≤ 256) with a
rectilinear two-valued domain and trim-invariant comments, writing it and
reading the written file back reproduces the same S×S×S grid within
10^-decimals, and the serialised data rows are the Fortran-order
flattening: every non-data output line is a title, comment, size or range
directive, and the r-th data row (r < S) is the grid entry at (r, 0, 0),
so r varies fastest and b slowest. -/
theorem claim_C1_cube_roundtrip (lut : LUT3D) (dec : ℕ) (stem : String) (a b : ℚ)
    (hdom : lut.domain = [(a, a, a), (b, b, b)]) (hab : a ≠ b)
    (hs2 : 2 ≤ lut.table.length) (hs256 : lut.table.length ≤ 256)
    (hcm : ∀ cm ∈ lut.comments, TrimInv cm) :
    ∃ lines L, writeResult (.threeD lut) dec = .ok lines ∧
      readLUT stem lines = .ok (some (.cube3D L)) ∧
      L.comments = lut.comments ∧
      L.table.length = lut.table.length ∧
      (∀ r g b2, r < lut.table.length → g < lut.table.length → b2 < lut.table.length →
        |(cubeGet L.table r g b2).1 - (cubeGet lut.table r g b2).1| ≤ 1 / 10 ^ dec ∧
        |(cubeGet L.table r g b2).2.1 - (cubeGet lut.table r g b2).2.1| ≤ 1 / 10 ^ dec ∧
        |(cubeGet L.table r g b2).2.2 - (cubeGet lut.table r g b2).2.2| ≤ 1 / 10 ^ dec) ∧
      (∃ header, lines = header ++ (flattenF lut.table).map (fmtV3 dec) ∧
        (∀ l ∈ header, l = titleLine lut.name ∨ (∃ cm ∈ lut.comments, l = commentLine cm) ∨
          l = size3DLine lut.table.length ∨ ∃ lo hi, l = range3DLine dec lo hi) ∧
        (∀ r, r < lut.table.length →
          ((flattenF lut.table).map (fmtV3 dec)).getD r "" =
            fmtV3 dec (cubeGet lut.table r 0 0))) ∧
      L.domain.length = lut.domain.length ∧
      (∀ i, i < lut.domain.length →
        |(L.domain.getD i (0, 0, 0)).1 - (lut.domain.getD i (0, 0, 0)).1| ≤ 1 / 10 ^ dec ∧
        |(L.domain.getD i (0, 0, 0)).2.1 - (lut.domain.getD i (0, 0, 0)).2.1| ≤ 1 / 10 ^ dec ∧
        |(L.domain.getD i (0, 0, 0)).2.2 - (lut.domain.getD i (0, 0, 0)).2.2| ≤ 1 / 10 ^ dec) := by
  obtain ⟨rbv, F, hrb, hscan, hmem, hdlen, hdbnd⟩ :
      ∃ (rbv : List String) (F : Domain → Domain),
      rangeBlock3D dec lut.domain = .ok rbv ∧
      (∀ st : RState, processLines st rbv = .ok { st with dom3D := F st.dom3D }) ∧
      (∀ l ∈ rbv, ∃ lo hi, l = range3DLine dec lo hi) ∧
      (F defaultDomain).length = lut.domain.length ∧
      (∀ i, i < lut.domain.length →
        |((F defaultDomain).getD i (0, 0, 0)).1 -
          (lut.domain.getD i (0, 0, 0)).1| ≤ 1 / 10 ^ dec ∧
        |((F defaultDomain).getD i (0, 0, 0)).2.1 -
          (lut.domain.getD i (0, 0, 0)).2.1| ≤ 1 / 10 ^ dec ∧
        |((F defaultDomain).getD i (0, 0, 0)).2.2 -
          (lut.domain.getD i (0, 0, 0)).2.2| ≤ 1 / 10 ^ dec) := by
    by_cases hdd : lut.domain = defaultDomain
    · refine ⟨[], id, by rw [hdd]; exact rangeBlock3D_default dec, fun st => rfl,
        fun l hl => absurd hl (List.not_mem_nil l), ?_, ?_⟩
      · rw [hdd]
        rfl
      · intro i hi
        rw [hdd]
        refine ⟨?_, ?_, ?_⟩ <;> simp only [id_eq, sub_self, abs_zero] <;> positivity
    · refine ⟨[range3DLine dec a b],
        fun _ => [(rnd dec a, rnd dec a, rnd dec a), (rnd dec b, rnd dec b, rnd dec b)],
        @rangeBlock3D_cons lut.domain (a, a, a) (b, b, b) [] dec hdom hdd,
        fun st => processLines_single (processLine_range3D st dec a b), ?_, ?_, ?_⟩
      · intro l hl
        rw [List.mem_singleton] at hl
        exact ⟨a, b, hl⟩
      · rw [hdom]
        rfl
      · intro i hi
        rw [hdom] at hi ⊢
        have hi2 : i < 2 := by simpa using hi
        interval_cases i
        · exact ⟨abs_rnd_sub_le dec a, abs_rnd_sub_le dec a, abs_rnd_sub_le dec a⟩
        · exact ⟨abs_rnd_sub_le dec b, abs_rnd_sub_le dec b, abs_rnd_sub_le dec b⟩
  have hS : (0 : ℕ) < lut.table.length := by omega
  have huc : uniqueCount lut.domain = 2 := by rw [hdom]; exact uniqueCount_rect hab
  have hwr : writeResult (.threeD lut) dec =
      .ok ([titleLine lut.name] ++ defaultLUT2D.comments.map commentLine ++
        lut.comments.map commentLine ++ (size3DLine lut.table.length :: rbv) ++
        (flattenF lut.table).map (fmtV3 dec)) := by
    show writeCore defaultLUT2D lut false true lut.name dec = _
    exact writeCore_3D ⟨uniqueCount_default, huc⟩ ⟨hs2, hs256⟩ hrb
  obtain ⟨ttl, hsc⟩ := scan_writer_3D stem lut.name defaultLUT2D.comments lut.comments
    lut.table.length rbv (flattenF lut.table) dec F hscan
  refine ⟨_, ⟨ttl, F defaultDomain, mapCube (rnd dec) lut.table.length lut.table,
    defaultLUT2D.comments.map (fun cm => String.mk (trimChars cm.data)) ++
      lut.comments.map fun cm => String.mk (trimChars cm.data)⟩,
    hwr, ?_, ?_, ?_, ?_, ?_, ?_, ?_⟩
  · rw [readLUT_eq hsc]
    exact classify_3D rfl rfl (@reshapeF_map_flattenF lut.table.length lut.table rfl hS (rnd dec))
  · show defaultLUT2D.comments.map (fun cm => String.mk (trimChars cm.data)) ++
      lut.comments.map (fun cm => String.mk (trimChars cm.data)) = lut.comments
    rw [show defaultLUT2D.comments.map (fun cm => String.mk (trimChars cm.data)) =
      ([] : List String) from rfl, List.nil_append]
    exact map_trim_of_TrimInv hcm
  · show (mapCube (rnd dec) lut.table.length lut.table).length = lut.table.length
    exact mapCube_length _ _ _
  · intro r g b2 hr hg hb2
    show (|(cubeGet (mapCube (rnd dec) lut.table.length lut.table) r g b2).1 -
        (cubeGet lut.table r g b2).1| ≤ 1 / 10 ^ dec) ∧
      (|(cubeGet (mapCube (rnd dec) lut.table.length lut.table) r g b2).2.1 -
        (cubeGet lut.table r g b2).2.1| ≤ 1 / 10 ^ dec) ∧
      (|(cubeGet (mapCube (rnd dec) lut.table.length lut.table) r g b2).2.2 -
        (cubeGet lut.table r g b2).2.2| ≤ 1 / 10 ^ dec)
    rw [mapCube_get (rnd dec) lut.table hr hg hb2]
    exact ⟨abs_rnd_sub_le dec _, abs_rnd_sub_le dec _, abs_rnd_sub_le dec _⟩
  · refine ⟨titleLine lut.name ::
      (lut.comments.map commentLine ++ (size3DLine lut.table.length :: rbv)), rfl, ?_, ?_⟩
    · intro l hl
      rcases List.mem_cons.1 hl with hl | hl
      · exact .inl hl
      rcases List.mem_append.1 hl with hl | hl
      · obtain ⟨cm, hcmm, hle⟩ := List.mem_map.1 hl
        exact .inr (.inl ⟨cm, hcmm, hle.symm⟩)
      rcases List.mem_cons.1 hl with hl | hl
      · exact .inr (.inr (.inl hl))
      · exact .inr (.inr (.inr (hmem l hl)))
    · intro r hr
      have hSle : lut.table.length ≤
          lut.table.length * lut.table.length * lut.table.length := by
        calc lut.table.length = 1 * 1 * lut.table.length := by ring
          _ ≤ lut.table.length * lut.table.length * lut.table.length := by
              exact Nat.mul_le_mul (Nat.mul_le_mul (by omega) (by omega)) le_rfl
      have hrlen : r < (flattenF lut.table).length := by
        rw [flattenF_length]
        exact lt_of_lt_of_le hr hSle
      rw [getD_map_lt (fmtV3 dec) hrlen (0, 0, 0) ""]
      rw [flattenF_first_axis rfl hr (0, 0, 0)]
  · exact hdlen
  · exact hdbnd

/-- Claim C1 witness: the concrete 2×2×2 cube with default domain and one
comment round-trips within one hundredth, with the stated row ordering. -/
theorem claim_C1_witness :
    (exLUT3D.domain = [((0 : ℚ), 0, 0), (1, 1, 1)] ∧ ((0 : ℚ) ≠ 1) ∧
     2 ≤ exLUT3D.table.length ∧ exLUT3D.table.length ≤ 256 ∧
     (∀ cm ∈ exLUT3D.comments, TrimInv cm)) ∧
    (∃ lines L, writeResult (.threeD exLUT3D) 2 = .ok lines ∧
      readLUT "t" lines = .ok (some (.cube3D L)) ∧
      L.comments = exLUT3D.comments ∧
      L.table.length = exLUT3D.table.length ∧
      (∀ r g b2, r < exLUT3D.table.length → g < exLUT3D.table.length →
          b2 < exLUT3D.table.length →
        |(cubeGet L.table r g b2).1 - (cubeGet exLUT3D.table r g b2).1| ≤ 1 / 10 ^ 2 ∧
        |(cubeGet L.table r g b2).2.1 - (cubeGet exLUT3D.table r g b2).2.1| ≤ 1 / 10 ^ 2 ∧
        |(cubeGet L.table r g b2).2.2 - (cubeGet exLUT3D.table r g b2).2.2| ≤ 1 / 10 ^ 2) ∧
      (∃ header, lines = header ++ (flattenF exLUT3D.table).map (fmtV3 2) ∧
        (∀ l ∈ header, l = titleLine exLUT3D.name ∨
          (∃ cm ∈ exLUT3D.comments, l = commentLine cm) ∨
          l = size3DLine exLUT3D.table.length ∨ ∃ lo hi, l = range3DLine 2 lo hi) ∧
        (∀ r, r < exLUT3D.table.length →
          ((flattenF exLUT3D.table).map (fmtV3 2)).getD r "" =
            fmtV3 2 (cubeGet exLUT3D.table r 0 0))) ∧
      L.domain.length = exLUT3D.domain.length ∧
      (∀ i, i < exLUT3D.domain.length →
        |(L.domain.getD i (0, 0, 0)).1 - (exLUT3D.domain.getD i (0, 0, 0)).1| ≤ 1 / 10 ^ 2 ∧
        |(L.domain.getD i (0, 0, 0)).2.1 -
          (exLUT3D.domain.getD i (0, 0, 0)).2.1| ≤ 1 / 10 ^ 2 ∧
        |(L.domain.getD i (0, 0, 0)).2.2 -
          (exLUT3D.domain.getD i (0, 0, 0)).2.2| ≤ 1 / 10 ^ 2)) :=
  ⟨⟨rfl, by decide, by decide, by decide, by decide⟩,
   claim_C1_cube_roundtrip exLUT3D 2 "t" 0 1 rfl (by decide) (by decide)
     (by decide) (by decide)⟩

/-- Claim C3: when the scan of a file has seen both a LUT_1D_SIZE and a
LUT_3D_SIZE directive, the reader returns a (shaper, cube) pair: the first
size2D data rows (in file order) are the shaper table, the remaining rows
are reshaped with r varying fastest and b slowest into the cube table
(entry (r, g, b) comes from dropped row r + S·g + S²·b), the shaper stage
is named "(title) - Shaper", the cube stage "(title) - Cube", and all
parsed comments are attached to the cube stage only. -/
theorem claim_C3_combined_split (stem : String) (ls : List String) (st : RState)
    (hscan : processLines (initState stem) ls = .ok st)
    (h2 : st.has2D = true) (h3 : st.has3D = true)
    (hw : ∀ row ∈ st.rows, row.length = 3)
    (cube : Cube) (hres : reshapeF st.size3D (st.rows.drop st.size2D) = some cube) :
    readLUT stem ls = .ok (some (.seqLUT
      ⟨st.title ++ " - Shaper", st.dom2D, st.rows.take st.size2D, []⟩
      ⟨st.title ++ " - Cube", st.dom3D, cube, st.comments⟩)) ∧
    (∀ r g b, r < st.size3D → g < st.size3D → b < st.size3D →
      cubeGet cube r g b =
        (((st.rows.drop st.size2D).getD
            (r + st.size3D * g + st.size3D * st.size3D * b) []).getD 0 0,
         ((st.rows.drop st.size2D).getD
            (r + st.size3D * g + st.size3D * st.size3D * b) []).getD 1 0,
         ((st.rows.drop st.size2D).getD
            (r + st.size3D * g + st.size3D * st.size3D * b) []).getD 2 0)) := by
  constructor
  · rw [readLUT_eq hscan]
    exact classify_seq h2 h3 hres
  · exact reshapeF_rows_get hres
      (fun row hrow => hw row (List.mem_of_mem_drop hrow))

/-- Claim C3 witness: a concrete file with both directives splits into the
first data row as shaper table and the second reshaped into a 1×1×1 cube,
with the stage names and comment placement as stated. -/
theorem claim_C3_witness :
    (processLines (initState "t")
        ["LUT_1D_SIZE 1", "LUT_3D_SIZE 1", "0 0 0", "0 0 0"] = .ok exC3st ∧
     exC3st.has2D = true ∧ exC3st.has3D = true ∧
     (∀ row ∈ exC3st.rows, row.length = 3) ∧
     reshapeF exC3st.size3D (exC3st.rows.drop exC3st.size2D) = some exC3cube) ∧
    (readLUT "t" ["LUT_1D_SIZE 1", "LUT_3D_SIZE 1", "0 0 0", "0 0 0"] =
      .ok (some (.seqLUT
        ⟨exC3st.title ++ " - Shaper", exC3st.dom2D, exC3st.rows.take exC3st.size2D, []⟩
        ⟨exC3st.title ++ " - Cube", exC3st.dom3D, exC3cube, exC3st.comments⟩)) ∧
    (∀ r g b, r < exC3st.size3D → g < exC3st.size3D → b < exC3st.size3D →
      cubeGet exC3cube r g b =
        (((exC3st.rows.drop exC3st.size2D).getD
            (r + exC3st.size3D * g + exC3st.size3D * exC3st.size3D * b) []).getD 0 0,
         ((exC3st.rows.drop exC3st.size2D).getD
            (r + exC3st.size3D * g + exC3st.size3D * exC3st.size3D * b) []).getD 1 0,
         ((exC3st.rows.drop exC3st.size2D).getD
            (r + exC3st.size3D * g + exC3st.size3D * exC3st.size3D * b) []).getD 2 0))) :=
  ⟨⟨by decide, rfl, rfl, by decide, by decide⟩,
   claim_C3_combined_split "t" ["LUT_1D_SIZE 1", "LUT_3D_SIZE 1", "0 0 0", "0 0 0"]
     exC3st (by decide) rfl rfl (by decide) exC3cube (by decide)⟩

end ResolveCube
